import Mathlib

/-!
Verification of the storage-and-synchronization core of `planungstool-web`.

The development shallowly embeds the TypeScript sources
`src/lib/services/encryption.ts`, `src/lib/services/storage.ts`,
`src/lib/services/syncService.ts` (with the backup methods of the extended
variant of that service) and `src/lib/types/sync.ts`.

Modelling conventions, used throughout:
* JavaScript strings are Lean `String`s; `str.split(':')` is re-implemented
  character-by-character as `jsSplit` with the exact ECMAScript semantics for
  a single-character separator.
* ISO-8601 timestamp strings are modelled by their epoch value (an `Int`),
  because every use in the sources either stores them verbatim or compares
  them through `new Date(...)`, which is monotone in the epoch value.
* The AES-256-CBC + PBKDF2 layer provided by the external `crypto-js`
  library is abstracted as a `Cipher`: a pair of functions from
  (password, salt, iv, text) to text.  The PBKDF2 key-derivation cache of
  `encryption.ts` is a pure memoisation and is not modelled, except that
  `resetAllData` empties it.  A correct cipher (`GoodCipher`) decrypts its
  own encryptions and produces colon-free ciphertext (hex salt/iv and
  base64 ciphertext contain no `:`); a concrete executable instance
  (`escCipher`) is provided for witnesses.
* `JSON.parse` / `JSON.stringify` (ECMAScript built-ins) are modelled on the
  primitive fragment (null, booleans, integers, plain string literals);
  values outside the fragment are treated as unparseable.  The claims under
  verification only exercise this fragment.
* The asynchronous methods run to completion without interleaving in the
  embedding; the `isSyncing` latch is passed explicitly as the value the
  field has when the method starts.
-/

namespace Planungstool

/-- Epoch-millisecond value of an ISO-8601 timestamp string
(`new Date(iso).getTime()`). -/
abbrev Timestamp := Int

/-! ### JavaScript `split(':')` -/

/-- `splitCh l` splits a character list at every `':'`, ECMAScript
`String.prototype.split` semantics: the result is never empty, and a
separator at either end produces an empty segment. -/
def splitCh : List Char → List (List Char)
  | [] => [[]]
  | c :: rest =>
    match splitCh rest with
    | [] => [[]]
    | h :: t => if c = ':' then [] :: h :: t else (c :: h) :: t

/-- Model of the JavaScript expression `s.split(':')`. -/
def jsSplit (s : String) : List String :=
  (splitCh s.data).map String.mk

theorem splitCh_ne_nil (l : List Char) : splitCh l ≠ [] := by
  cases l with
  | nil => simp [splitCh]
  | cons c rest =>
    simp only [splitCh]
    cases splitCh rest with
    | nil => simp
    | cons h t =>
      by_cases hc : c = ':' <;> simp [hc]

theorem splitCh_of_not_mem {l : List Char} (h : ':' ∉ l) : splitCh l = [l] := by
  induction l with
  | nil => rfl
  | cons c rest ih =>
    have hc : c ≠ ':' := fun hc => h (hc ▸ List.mem_cons_self c rest)
    have hr : ':' ∉ rest := fun hr => h (List.mem_cons_of_mem c hr)
    simp [splitCh, ih hr, hc]

theorem splitCh_append_colon {a : List Char} (b : List Char) (h : ':' ∉ a) :
    splitCh (a ++ ':' :: b) = a :: splitCh b := by
  induction a with
  | nil =>
    simp only [List.nil_append, splitCh]
    cases hb : splitCh b with
    | nil => exact absurd hb (splitCh_ne_nil b)
    | cons hh tt => simp
  | cons c rest ih =>
    have hc : c ≠ ':' := fun hc => h (hc ▸ List.mem_cons_self c rest)
    have hr : ':' ∉ rest := fun hr => h (List.mem_cons_of_mem c hr)
    simp only [List.cons_append, splitCh, List.append_eq]
    rw [ih hr]
    simp [hc]

/-- A string with no colon in it (hex-encoded salts and ivs and base64
ciphertexts are of this shape). -/
def noColonS (s : String) : Prop := ':' ∉ s.data

instance (s : String) : Decidable (noColonS s) := by
  unfold noColonS; infer_instance

theorem jsSplit_three {salt iv ct : String}
    (h1 : noColonS salt) (h2 : noColonS iv) (h3 : noColonS ct) :
    jsSplit (salt ++ ":" ++ iv ++ ":" ++ ct) = [salt, iv, ct] := by
  have hdata : (salt ++ ":" ++ iv ++ ":" ++ ct).data
      = salt.data ++ ':' :: (iv.data ++ ':' :: ct.data) := by
    simp [String.data_append]
  unfold jsSplit
  rw [hdata, splitCh_append_colon _ h1, splitCh_append_colon _ h2,
    splitCh_of_not_mem h3]
  rfl

/-! ### The JSON fragment -/

/-- JSON values of the primitive fragment produced/consumed by the claims.
`JSON.parse` results outside this fragment (arrays, objects, fractional
numbers) are modelled as parse failures. -/
inductive JsValue where
  | null : JsValue
  | bool (b : Bool) : JsValue
  | num (n : Int) : JsValue
  | str (s : String) : JsValue
deriving DecidableEq, Repr

/-- Decimal digit test. -/
def isDigit (c : Char) : Bool := '0' ≤ c && c ≤ '9'

/-- Value of a digit list, most significant first. -/
def digitsValAux (acc : Nat) : List Char → Nat
  | [] => acc
  | c :: rest => digitsValAux (acc * 10 + (c.toNat - '0'.toNat)) rest

/-- Parse a JSON unsigned-integer numeral (non-empty digits, no leading
zero except for `0` itself). -/
def parseNatDigits (l : List Char) : Option Nat :=
  if l.all isDigit && !l.isEmpty && !(decide (l.length > 1) && l.head? == some '0')
  then some (digitsValAux 0 l) else none

/-- Parse a JSON integer numeral, with optional leading minus sign. -/
def jsonParseNum (s : String) : Option Int :=
  match s.data with
  | '-' :: rest => (parseNatDigits rest).map (fun n => -(n : Int))
  | l => (parseNatDigits l).map (fun n => (n : Int))

/-- Parse a JSON string literal without escape sequences (the fragment the
claims exercise). -/
def jsonParseStr (s : String) : Option String :=
  match s.data with
  | '"' :: rest =>
    if rest.getLast? == some '"'
        && rest.dropLast.all (fun c => c != '"' && c != '\\')
    then some (String.mk rest.dropLast) else none
  | _ => none

/-- Model of `JSON.parse` on the primitive fragment: `null`, booleans,
integer numerals and plain string literals; every other input is treated as
a parse failure. -/
def jsonParse (s : String) : Option JsValue :=
  if s = "null" then some .null
  else if s = "true" then some (.bool true)
  else if s = "false" then some (.bool false)
  else match jsonParseNum s with
    | some n => some (.num n)
    | none =>
      match jsonParseStr s with
      | some t => some (.str t)
      | none => none

/-- Model of `JSON.stringify` on the primitive fragment (string escaping is
elided: the fragment has no quotes or backslashes inside strings). -/
def jsonStringify : JsValue → String
  | .null => "null"
  | .bool true => "true"
  | .bool false => "false"
  | .num n => toString n
  | .str s => String.mk ('"' :: (s.data ++ ['"']))

/-- `typeof x === 'string' ? x : JSON.stringify(x)` — used by both
`encrypt` (encryption.ts line 62) and `getItem` (storage.ts line 141). -/
def plainOfJs : JsValue → String
  | .str s => s
  | v => jsonStringify v

/-! ### The cipher engine (`src/lib/services/encryption.ts`) -/

/-- Abstraction of the `crypto-js` AES-256-CBC layer together with the
PBKDF2 key derivation of `encryption.ts` (`deriveKey` + `CryptoJS.AES`):
`enc pw salt iv text` is the base64 ciphertext, `dec pw salt iv ct` the
decrypted text, where the empty string models the
`decrypted.toString(CryptoJS.enc.Utf8)` result of a failed decryption.
The key-derivation cache (encryption.ts lines 19–40) memoises `deriveKey`
and is observationally transparent, so it is not part of the abstraction. -/
structure Cipher where
  enc : String → String → String → String → String
  dec : String → String → String → String → String

/-- A cipher that behaves like a correctly used AES-CBC instance for
password `pw`: decryption inverts encryption, and ciphertexts are
colon-free (base64). -/
structure GoodCipher (C : Cipher) (pw : String) : Prop where
  roundtrip : ∀ salt iv p, C.dec pw salt iv (C.enc pw salt iv p) = p
  encNoColon : ∀ salt iv p, noColonS (C.enc pw salt iv p)

/-- `EncryptionService.encrypt` (encryption.ts lines 60–82).  The fresh
random salt and iv of lines 63–64 are explicit parameters; the returned
string is `salt:iv:ciphertext` (line 77). -/
def encrypt (C : Cipher) (pw salt iv : String) (data : JsValue) : String :=
  salt ++ ":" ++ iv ++ ":" ++ C.enc pw salt iv (plainOfJs data)

/-- Body of the `try` block of `EncryptionService.decrypt` (encryption.ts
lines 89–118): split on `:` expecting exactly 3 parts (line 91 throws the
format error), decrypt, reject an empty result (line 110), then try
`JSON.parse`, falling back to the raw string (lines 114–118). -/
def decryptRaw (C : Cipher) (encryptedData pw : String) : Except String JsValue :=
  match jsSplit encryptedData with
  | [salt, iv, ct] =>
    let s := C.dec pw salt iv ct
    if s = "" then .error "Entschlüsselung fehlgeschlagen"
    else
      match jsonParse s with
      | some v => .ok v
      | none => .ok (.str s)
  | _ => .error "Ungültiges Format der verschlüsselten Daten"

/-- `EncryptionService.decrypt` (encryption.ts lines 88–123): the outer
`catch` (lines 119–122) replaces every failure of the body by the single
generic error of line 121. -/
def decrypt (C : Cipher) (encryptedData pw : String) : Except String JsValue :=
  match decryptRaw C encryptedData pw with
  | .ok v => .ok v
  | .error _ => .error "Entschlüsselung fehlgeschlagen - falsches Passwort?"

/-! ### A concrete executable cipher for witnesses

`escCipher` escapes `:` and `#` so that ciphertexts are colon-free and
decryption inverts encryption — an executable stand-in for a correctly
used AES-CBC instance. -/

/-- Escape one character: `:` ↦ `#c`, `#` ↦ `#h`, all else verbatim. -/
def escChar (c : Char) : List Char :=
  if c = ':' then ['#', 'c'] else if c = '#' then ['#', 'h'] else [c]

/-- Escape a character list. -/
def escapeL : List Char → List Char
  | [] => []
  | c :: rest => escChar c ++ escapeL rest

/-- Inverse of `escapeL`. -/
def unescapeL : List Char → List Char
  | [] => []
  | c :: rest =>
    if c = '#' then
      match rest with
      | [] => []
      | d :: rest2 => (if d = 'c' then ':' else '#') :: unescapeL rest2
    else c :: unescapeL rest

theorem unescapeL_escapeL (l : List Char) : unescapeL (escapeL l) = l := by
  induction l with
  | nil => rfl
  | cons c rest ih =>
    by_cases h1 : c = ':'
    · subst h1; simp [escapeL, escChar, unescapeL, ih]
    · by_cases h2 : c = '#'
      · subst h2; simp [escapeL, escChar, unescapeL, ih]
      · have hu : unescapeL (c :: escapeL rest) = c :: unescapeL (escapeL rest) := by
          rw [unescapeL.eq_def]; simp [h2]
        simp [escapeL, escChar, h1, h2, hu, ih]

theorem escapeL_no_colon (l : List Char) : ':' ∉ escapeL l := by
  induction l with
  | nil => simp [escapeL]
  | cons c rest ih =>
    simp only [escapeL, List.mem_append]
    rintro (h | h)
    · unfold escChar at h
      by_cases h1 : c = ':'
      · simp [h1] at h
      · by_cases h2 : c = '#' <;> simp [h1, h2] at h
        exact h1 h.symm
    · exact ih h

/-- Executable correct cipher: escaping-based, password-independent. -/
def escCipher : Cipher where
  enc := fun _pw _salt _iv p => String.mk (escapeL p.data)
  dec := fun _pw _salt _iv c => String.mk (unescapeL c.data)

/-- Executable correct cipher that (like real AES-CBC with overwhelming
probability) yields a failed decryption for every password other than
`goodPw`. -/
def escCipherW (goodPw : String) : Cipher where
  enc := fun _pw _salt _iv p => String.mk (escapeL p.data)
  dec := fun pw _salt _iv c =>
    if pw = goodPw then String.mk (unescapeL c.data) else ""

theorem escCipher_good (pw : String) : GoodCipher escCipher pw := by
  constructor
  · intro salt iv p
    show String.mk (unescapeL (String.mk (escapeL p.data)).data) = p
    rw [show (String.mk (escapeL p.data)).data = escapeL p.data from rfl,
      unescapeL_escapeL]
  · intro salt iv p
    exact escapeL_no_colon p.data

theorem escCipherW_good (goodPw : String) : GoodCipher (escCipherW goodPw) goodPw := by
  constructor
  · intro salt iv p
    show (if goodPw = goodPw then String.mk (unescapeL (String.mk (escapeL p.data)).data) else "") = p
    rw [if_pos rfl,
      show (String.mk (escapeL p.data)).data = escapeL p.data from rfl,
      unescapeL_escapeL]
  · intro salt iv p
    exact escapeL_no_colon p.data

/-! ### Key sets (`storage.ts` lines 11–27, `types/sync.ts` lines 21–35) -/

/-- `ENCRYPTED_KEYS` (storage.ts lines 11–24). -/
def ENCRYPTED_KEYS : List String :=
  ["lessons", "themes", "blockages", "students", "classes",
   "coachingSessions", "coachingTags", "exams", "examResults",
   "customClassColors", "materialUsages", "importedEvents"]

/-- `SYNCABLE_KEYS` (types/sync.ts lines 21–35). -/
def SYNCABLE_KEYS : List String :=
  ["classes", "exams", "examResults", "coachingSessions", "coachingTags",
   "lessons", "themes", "blockages", "students", "customClassColors",
   "materialUsages", "importedEvents", "appSettings"]

/-- `PASSWORD_CHECK_KEY` (storage.ts line 26). -/
def PASSWORD_CHECK_KEY : String := "passwordCheck"

/-- `PASSWORD_CHECK_VALUE` (storage.ts line 27). -/
def PASSWORD_CHECK_VALUE : String := "VALID"

/-- `TIMESTAMPS_KEY` (storage.ts line 8). -/
def TIMESTAMPS_KEY : String := "localTimestamps"

/-! ### The IndexedDB object store

A record stored in the `data` object store is either a plain string or the
JSON-serialised timestamps map written under `TIMESTAMPS_KEY`
(storage.ts line 290); JSON round-trips such maps, so the serialisation is
modelled by the dedicated constructor `ts`. -/

/-- One stored record of the IndexedDB `data` store. -/
inductive StoredValue where
  | str (s : String) : StoredValue
  | ts (m : List (String × Timestamp)) : StoredValue
deriving DecidableEq, Repr

/-- Association-list get: first binding wins (IndexedDB keys are unique). -/
def alGet {α : Type} (l : List (String × α)) (k : String) : Option α :=
  match l with
  | [] => none
  | (k', v) :: rest => if k' = k then some v else alGet rest k

/-- Association-list put: update in place, append when absent (matches both
`IDBObjectStore.put` and JavaScript object assignment, key order included). -/
def alPut {α : Type} (l : List (String × α)) (k : String) (v : α) :
    List (String × α) :=
  match l with
  | [] => [(k, v)]
  | (k', v') :: rest => if k' = k then (k, v) :: rest else (k', v') :: alPut rest k v

/-- Association-list delete (`IDBObjectStore.delete`). -/
def alDelete {α : Type} (l : List (String × α)) (k : String) :
    List (String × α) :=
  l.filter (fun e => e.1 != k)

theorem alGet_put_self {α : Type} (l : List (String × α)) (k : String) (v : α) :
    alGet (alPut l k v) k = some v := by
  induction l with
  | nil => simp [alGet, alPut]
  | cons e rest ih =>
    obtain ⟨k', v'⟩ := e
    by_cases h : k' = k <;> simp [alGet, alPut, h, ih]

theorem alGet_put_ne {α : Type} (l : List (String × α)) {k k2 : String} (v : α)
    (h : k ≠ k2) : alGet (alPut l k v) k2 = alGet l k2 := by
  induction l with
  | nil => simp [alGet, alPut, h]
  | cons e rest ih =>
    obtain ⟨k', v'⟩ := e
    by_cases h2 : k' = k
    · subst h2; simp [alGet, alPut, h]
    · simp [alGet, alPut, h2, ih]

theorem alGet_delete_self {α : Type} (l : List (String × α)) (k : String) :
    alGet (alDelete l k) k = none := by
  induction l with
  | nil => simp [alGet, alDelete]
  | cons e rest ih =>
    obtain ⟨k', v'⟩ := e
    by_cases h : k' = k
    · subst h
      simp only [alDelete, List.filter_cons, bne_self_eq_false, Bool.false_eq_true,
        if_false, if_neg]
      exact ih
    · simp only [alDelete, List.filter_cons] at ih ⊢
      rw [if_pos (by simpa using h)]
      simp only [alGet, if_neg h]
      exact ih

theorem alGet_delete_ne {α : Type} (l : List (String × α)) {k k2 : String}
    (h : k ≠ k2) : alGet (alDelete l k) k2 = alGet l k2 := by
  induction l with
  | nil => simp [alGet, alDelete]
  | cons e rest ih =>
    obtain ⟨k', v'⟩ := e
    by_cases h2 : k' = k
    · subst h2
      simp only [alDelete, List.filter_cons, bne_self_eq_false, Bool.false_eq_true,
        if_false, if_neg] at ih ⊢
      rw [ih]
      simp [alGet, h]
    · simp only [alDelete, List.filter_cons] at ih ⊢
      rw [if_pos (by simpa using h2)]
      by_cases h3 : k' = k2 <;> simp [alGet, h3, ih]

/-- Contents of the IndexedDB `data` object store. -/
abbrev Db := List (String × StoredValue)

/-- The `BrowserStorage` instance state: the persistent object store, the
in-memory password (storage.ts line 34) and the key-derivation cache of
`EncryptionService` (encryption.ts line 14; its entries are opaque here —
only `clearKeyCache` touches it observably). -/
structure StoreState where
  db : Db
  password : Option String
  keyCache : List (String × String)
deriving DecidableEq, Repr

/-! ### Storage operations (`src/lib/services/storage.ts`) -/

/-- `JSON.stringify` of the timestamps map, the serialised form of the
`StoredValue.ts` constructor.  Only two unreachable corner branches read a
non-string record back as a string (no claim inspects the text), so a plain
rendering of the map suffices. -/
def tsStringify (m : List (String × Timestamp)) : String :=
  "\x7b" ++ String.intercalate ","
    (m.map (fun e => jsonStringify (.str e.1) ++ ":" ++ jsonStringify (.str (toString e.2))))
  ++ "\x7d"

/-- `shouldEncrypt` (storage.ts lines 65–67). -/
def shouldEncrypt (key : String) : Bool := ENCRYPTED_KEYS.contains key

/-- `setPassword` (storage.ts lines 72–74). -/
def setPassword (st : StoreState) (password : String) : StoreState :=
  { st with password := some password }

/-- `clearPassword` (storage.ts lines 79–82): drops the session password and
clears the `EncryptionService` key cache. -/
def clearPassword (st : StoreState) : StoreState :=
  { st with password := none, keyCache := [] }

/-- `getTimestamps` (storage.ts lines 296–308): read `TIMESTAMPS_KEY` and
JSON-parse it, returning the empty map when absent or unparseable. -/
def getTimestamps (db : Db) : List (String × Timestamp) :=
  match alGet db TIMESTAMPS_KEY with
  | some (.ts m) => m
  | _ => []

/-- `updateTimestamp` (storage.ts lines 284–291), with the
`new Date().toISOString()` of line 289 passed in as `now`. -/
def updateTimestamp (db : Db) (key : String) (now : Timestamp) : Db :=
  alPut db TIMESTAMPS_KEY (.ts (alPut (getTimestamps db) key now))

/-- `getTimestamp` (storage.ts lines 313–317). -/
def getTimestamp (db : Db) (key : String) : Option Timestamp :=
  alGet (getTimestamps db) key

/-- `setItem` (storage.ts lines 94–117): encrypt first when the key is in
`ENCRYPTED_KEYS` (throwing without a password), store, then bump the
timestamp ledger for syncable keys.  `salt`/`iv` are the fresh randomness
of the `encrypt` call, `now` the clock reading of `updateTimestamp`. -/
def setItem (C : Cipher) (salt iv : String) (now : Timestamp)
    (st : StoreState) (key value : String) : Except String StoreState :=
  if shouldEncrypt key then
    match st.password with
    | none => .error "Kein Passwort gesetzt - kann nicht verschlüsseln"
    | some pw =>
      let db1 := alPut st.db key (.str (encrypt C pw salt iv (.str value)))
      let db2 := if SYNCABLE_KEYS.contains key then updateTimestamp db1 key now else db1
      .ok { st with db := db2 }
  else
    let db1 := alPut st.db key (.str value)
    let db2 := if SYNCABLE_KEYS.contains key then updateTimestamp db1 key now else db1
    .ok { st with db := db2 }

/-- The encrypted-format test of storage.ts line 139 / line 225:
`value.includes(':') && value.split(':').length === 3`. -/
def looksEncrypted (s : String) : Bool :=
  s.data.contains ':' && (jsSplit s).length == 3

/-- `getItem` (storage.ts lines 122–153): absent keys give `null`; encrypted
keys require a password (line 134) *before* the format check of line 139;
raw values in 3-segment format are decrypted (line 141 re-stringifies a
JSON-parsed result), all other raw values are returned as un-migrated
legacy plaintext (line 144).  A stored non-string record fails the
`typeof value === 'string'` conjunct and is returned as-is (modelled by its
serialisation). -/
def getItem (C : Cipher) (st : StoreState) (key : String) :
    Except String (Option String) :=
  match alGet st.db key with
  | none => .ok none
  | some v =>
    if shouldEncrypt key then
      match st.password with
      | none => .error "Kein Passwort gesetzt - kann nicht entschlüsseln"
      | some pw =>
        match v with
        | .str s =>
          if looksEncrypted s then
            match decrypt C s pw with
            | .ok jv => .ok (some (plainOfJs jv))
            | .error e => .error e
          else .ok (some s)
        | .ts m => .ok (some (tsStringify m))
    else
      match v with
      | .str s => .ok (some s)
      | .ts m => .ok (some (tsStringify m))

/-- One iteration of the migration loop of `migrateUnencryptedData`
(storage.ts lines 218–240): skip absent values, skip string values in
3-segment format whose trial decrypt succeeds, re-encrypt everything else
(non-string values go through `encrypt`'s `JSON.stringify`). -/
def migrateKeyStep (C : Cipher) (pw salt iv : String) (db : Db) (key : String) : Db :=
  match alGet db key with
  | none => db
  | some (.str s) =>
    if looksEncrypted s then
      match decrypt C s pw with
      | .ok _ => db
      | .error _ => alPut db key (.str (encrypt C pw salt iv (.str s)))
    else alPut db key (.str (encrypt C pw salt iv (.str s)))
  | some (.ts m) => alPut db key (.str (encrypt C pw salt iv (.str (tsStringify m))))

/-- The migration loop over an indexed key list, the fresh salt/iv of each
`encrypt` call drawn from the randomness stream `rnd` at the key's
position. -/
def migrateFold (C : Cipher) (pw : String) (rnd : Nat → String × String)
    (L : List (Nat × String)) (db : Db) : Db :=
  L.foldl (fun acc p => migrateKeyStep C pw (rnd p.1).1 (rnd p.1).2 acc p.2) db

/-- The migration loop over `ENCRYPTED_KEYS` (storage.ts line 218). -/
def migrateDb (C : Cipher) (pw : String) (rnd : Nat → String × String) (db : Db) : Db :=
  migrateFold C pw rnd ENCRYPTED_KEYS.enum db

/-- `migrateUnencryptedData` (storage.ts lines 210–241): requires an active
password session, then runs the per-key loop. -/
def migrateUnencryptedData (C : Cipher) (rnd : Nat → String × String)
    (st : StoreState) : Except String StoreState :=
  match st.password with
  | none => .error "Kein Passwort gesetzt"
  | some pw => .ok { st with db := migrateDb C pw rnd st.db }

/-- The keys deleted by `resetAllData` (storage.ts line 250). -/
def RESET_KEYS : List String := PASSWORD_CHECK_KEY :: ENCRYPTED_KEYS

/-- `resetAllData` (storage.ts lines 246–257): delete the password sentinel
and every encrypted key, then `clearPassword`. -/
def resetAllData (st : StoreState) : StoreState :=
  clearPassword { st with db := RESET_KEYS.foldl alDelete st.db }

/-- `getRawItem` (storage.ts lines 322–328): raw read without decryption. -/
def getRawItem (db : Db) (key : String) : Option StoredValue :=
  alGet db key

/-- `setRawItem` (storage.ts lines 334–339): raw write, no timestamp bump. -/
def setRawItem (db : Db) (key : String) (value : String) : Db :=
  alPut db key (.str value)

/-- `setRawItemWithTimestamp` (storage.ts lines 344–354): raw write, then
set the ledger entry to the given cloud timestamp (not to the current
time). -/
def setRawItemWithTimestamp (db : Db) (key : String) (value : String)
    (timestamp : Timestamp) : Db :=
  let db1 := alPut db key (.str value)
  alPut db1 TIMESTAMPS_KEY (.ts (alPut (getTimestamps db1) key timestamp))

/-! ### Cloud sync engine (`src/lib/services/syncService.ts`)

The model fixes one authenticated user and a configured Supabase client:
`user_id` is dropped from rows (every query in the source carries the same
`eq('user_id', userId)` predicate) and the `!supabase` / `!userId` early
returns are not modelled.  Each method takes the value the `isSyncing`
field has when it starts; the remote operations a call performs are
returned as an explicit log. -/

/-- One `user_data` row of the current user (`types/sync.ts` lines 9–15,
without the fixed `user_id`). -/
structure CloudRow where
  data_type : String
  encrypted_data : String
  updated_at : Timestamp
deriving DecidableEq, Repr

/-- The current user's `user_data` rows. -/
abbrev CloudState := List CloudRow

/-- `SyncResult` (syncService.ts lines 5–10). -/
structure SyncResult where
  success : Bool
  uploaded : List String
  downloaded : List String
  errors : List String
deriving DecidableEq, Repr

/-- A remote (Supabase) operation performed by a sync method. -/
inductive RemoteOp where
  | selectTimestamps : RemoteOp
  | selectOne (k : String) : RemoteOp
  | upsertRow (k data : String) (t : Timestamp) : RemoteOp
  | selectAllRows : RemoteOp
deriving DecidableEq, Repr

/-- Point lookup of the user's row for one data type (first match: the DB
enforces uniqueness of `(user_id, data_type)`). -/
def cloudGet (cloud : CloudState) (k : String) : Option CloudRow :=
  match cloud with
  | [] => none
  | r :: rest => if r.data_type = k then some r else cloudGet rest k

/-- The upsert of syncService.ts lines 124–133: replace the row for
`(user, data_type)` or insert it. -/
def upsertCloud (cloud : CloudState) (k data : String) (t : Timestamp) :
    CloudState :=
  match cloud with
  | [] => [⟨k, data, t⟩]
  | r :: rest =>
    if r.data_type = k then ⟨k, data, t⟩ :: rest
    else r :: upsertCloud rest k data t

theorem cloudGet_upsert_self (cloud : CloudState) (k data : String)
    (t : Timestamp) : cloudGet (upsertCloud cloud k data t) k = some ⟨k, data, t⟩ := by
  induction cloud with
  | nil => simp [cloudGet, upsertCloud]
  | cons r rest ih =>
    by_cases h : r.data_type = k <;> simp [cloudGet, upsertCloud, h, ih]

theorem cloudGet_upsert_ne (cloud : CloudState) {k k2 : String} (data : String)
    (t : Timestamp) (h : k ≠ k2) :
    cloudGet (upsertCloud cloud k data t) k2 = cloudGet cloud k2 := by
  induction cloud with
  | nil => simp [cloudGet, upsertCloud, h]
  | cons r rest ih =>
    by_cases h2 : r.data_type = k
    · simp [cloudGet, upsertCloud, h2, h]
    · by_cases h3 : r.data_type = k2
      · have hk : k2 ≠ k := fun hh => h hh.symm
        simp [cloudGet, upsertCloud, h2, h3, hk]
      · simp [cloudGet, upsertCloud, h2, h3, ih]

/-- The string a raw stored record contributes as `encrypted_data`
(IndexedDB values are serialised on the wire; syncable keys only ever hold
`.str` values). -/
def storedText : StoredValue → String
  | .str s => s
  | .ts m => tsStringify m

/-- JavaScript truthiness of a raw stored record, as tested by
`if (!data) return` (syncService.ts line 120): among strings only the
empty string is falsy; a stored object is always truthy. -/
def storedTruthy : StoredValue → Bool
  | .str s => !(s == "")
  | .ts _ => true

/-- `uploadDataType` (syncService.ts lines 113–138): read the raw local
value; the falsy check of line 120 returns silently when the value is
absent *or* the stored empty string; otherwise upsert it remotely with
`updated_at` set to `new Date().toISOString()` — the current time `now`,
not the local ledger timestamp. -/
def uploadDataType (now : Timestamp) (db : Db) (cloud : CloudState)
    (key : String) : CloudState × List RemoteOp :=
  match getRawItem db key with
  | none => (cloud, [])
  | some v =>
    if storedTruthy v then
      (upsertCloud cloud key (storedText v) now, [.upsertRow key (storedText v) now])
    else (cloud, [])

/-- `downloadDataType` (syncService.ts lines 143–167): point lookup; a
missing row (`PGRST116`) is a silent no-op; otherwise store the remote
value and remote timestamp locally via `setRawItemWithTimestamp`. -/
def downloadDataType (cloud : CloudState) (db : Db) (key : String) :
    Db × List RemoteOp :=
  match cloudGet cloud key with
  | none => (db, [.selectOne key])
  | some row =>
    (setRawItemWithTimestamp db key row.encrypted_data row.updated_at,
      [.selectOne key])

/-- The per-key decision of syncService.ts lines 77–91 (`new Date`
comparisons on the snapshotted timestamps). -/
inductive SyncAction where
  | upload : SyncAction
  | download : SyncAction
  | skip : SyncAction
deriving DecidableEq, Repr

/-- Decision for one key from the snapshotted local and cloud timestamps. -/
def syncDecision (localTs cloudTs : Option Timestamp) : SyncAction :=
  match localTs, cloudTs with
  | none, none => .skip
  | some _, none => .upload
  | none, some _ => .download
  | some l, some c => if c < l then .upload else if l < c then .download else .skip

/-- Accumulator of the `for (const key of SYNCABLE_KEYS)` loop of
`syncAll`. -/
structure SyncLoopState where
  cloud : CloudState
  db : Db
  uploaded : List String
  downloaded : List String
  ops : List RemoteOp
deriving Repr

/-- One iteration of the `syncAll` loop (syncService.ts lines 72–96): act on
the decision, recording the key in `uploaded`/`downloaded` (the source
pushes the key whenever the primitive returns without throwing, even if it
was a silent no-op). -/
def syncKeyStep (now : Timestamp) (lsnap csnap : String → Option Timestamp)
    (st : SyncLoopState) (key : String) : SyncLoopState :=
  match syncDecision (lsnap key) (csnap key) with
  | .upload =>
    let r := uploadDataType now st.db st.cloud key
    { st with cloud := r.1, ops := st.ops ++ r.2,
              uploaded := st.uploaded ++ [key] }
  | .download =>
    let r := downloadDataType st.cloud st.db key
    { st with db := r.1, ops := st.ops ++ r.2,
              downloaded := st.downloaded ++ [key] }
  | .skip => st

/-- The rejection result of syncService.ts line 37. -/
def syncBusyResult : SyncResult :=
  { success := false, uploaded := [], downloaded := [],
    errors := ["Sync already in progress"] }

/-- The cloud-timestamp snapshot `cloudTimestamps` taken at syncService.ts
lines 54–66, as a lookup function. -/
def csnapOf (cloud : CloudState) : String → Option Timestamp :=
  fun k => (cloudGet cloud k).map CloudRow.updated_at

/-- The local-timestamp snapshot of syncService.ts line 69, as a lookup
function. -/
def lsnapOf (db : Db) : String → Option Timestamp :=
  fun k => getTimestamp db k

/-- `syncAll` (syncService.ts lines 35–108) on the happy path (configured,
authenticated, no network failures): reject immediately when `isSyncing` is
already set; otherwise snapshot the cloud and local timestamps, run the
per-key loop, and succeed (the error-collection path is not exercised in
this model, so `errors` stays empty). -/
def syncAll (now : Timestamp) (is_syncing : Bool) (cloud : CloudState)
    (db : Db) : SyncResult × CloudState × Db × List RemoteOp :=
  if is_syncing then (syncBusyResult, cloud, db, [])
  else
    let fin := SYNCABLE_KEYS.foldl (syncKeyStep now (lsnapOf db) (csnapOf cloud))
      { cloud := cloud, db := db, uploaded := [], downloaded := [],
        ops := [.selectTimestamps] }
    ({ success := true, uploaded := fin.uploaded,
       downloaded := fin.downloaded, errors := [] },
      fin.cloud, fin.db, fin.ops)

/-- `uploadAll` (syncService.ts lines 172–199): for every syncable key with
JS-truthy local data (`if (data)` at line 187 — a stored empty string is
falsy and skipped, not recorded in `uploaded`), upload it unconditionally.
The method neither checks nor sets the `isSyncing` latch — the parameter
is ignored exactly as the source ignores the field. -/
def uploadAll (now : Timestamp) (_is_syncing : Bool) (cloud : CloudState)
    (db : Db) : SyncResult × CloudState × List RemoteOp :=
  let fin := SYNCABLE_KEYS.foldl
    (fun (acc : CloudState × List String × List RemoteOp) key =>
      match getRawItem db key with
      | none => acc
      | some v =>
        if storedTruthy v then
          (upsertCloud acc.1 key (storedText v) now,
            acc.2.1 ++ [key],
            acc.2.2 ++ [.upsertRow key (storedText v) now])
        else acc)
    (cloud, [], [])
  ({ success := true, uploaded := fin.2.1, downloaded := [], errors := [] },
    fin.1, fin.2.2)

/-- `downloadAll` (syncService.ts lines 204–241): fetch every remote row of
the user and store each locally with its remote timestamp.  Like
`uploadAll` it neither checks nor sets the `isSyncing` latch. -/
def downloadAll (_is_syncing : Bool) (cloud : CloudState) (db : Db) :
    SyncResult × Db × List RemoteOp :=
  let fin := cloud.foldl
    (fun (acc : Db × List String) row =>
      (setRawItemWithTimestamp acc.1 row.data_type row.encrypted_data row.updated_at,
        acc.2 ++ [row.data_type]))
    (db, [])
  ({ success := true, uploaded := [], downloaded := fin.2, errors := [] },
    fin.1, [.selectAllRows])

/-! ### Backup subsystem (extended sync service, `src/unnamed/part_004`) -/

/-- One `user_data_backups` row of the current user (part_004 lines
319–333): a snapshot of every cloud row, keyed by an id and the insertion
time. -/
structure BackupRow where
  id : Nat
  created_at : Timestamp
  backup_data : List (String × String × Timestamp)
deriving DecidableEq, Repr

/-- The `backup_data` map built from the current cloud rows (part_004 lines
319–325). -/
def snapshotCloud (cloud : CloudState) : List (String × String × Timestamp) :=
  cloud.map (fun r => (r.data_type, r.encrypted_data, r.updated_at))

/-- Insert into a list sorted by `created_at` descending. -/
def insertDesc (r : BackupRow) : List BackupRow → List BackupRow
  | [] => [r]
  | x :: xs => if x.created_at ≤ r.created_at then r :: x :: xs else x :: insertDesc r xs

/-- The `.order('created_at', { ascending: false })` of the backup queries:
rows sorted by creation time, newest first. -/
def sortByCreatedDesc (rows : List BackupRow) : List BackupRow :=
  rows.foldr insertDesc []

/-- `deleteOldBackups` (part_004 lines 353–373): fetch the user's backups
newest-first and delete every row beyond the newest 3 by id. -/
def deleteOldBackups (backups : List BackupRow) : List BackupRow :=
  let sorted := sortByCreatedDesc backups
  if sorted.length > 3 then
    let toDelete := (sorted.drop 3).map BackupRow.id
    backups.filter (fun b => !toDelete.contains b.id)
  else backups

/-- `createBackup` (part_004 lines 295–348) on the happy path: a successful
no-op when the user has no cloud rows, otherwise insert a snapshot row
(`created_at` is the insertion time `now`, `id` the fresh row id) and prune
old backups. -/
def createBackup (cloud : CloudState) (newId : Nat) (now : Timestamp)
    (backups : List BackupRow) : List BackupRow :=
  if cloud.isEmpty then backups
  else deleteOldBackups (backups ++ [⟨newId, now, snapshotCloud cloud⟩])

/-- `getBackups` (part_004 lines 378–397): up to 3 backups, newest first. -/
def getBackups (backups : List BackupRow) : List BackupRow :=
  (sortByCreatedDesc backups).take 3

/-- One `createBackup` call of a call sequence: the cloud rows it sees, the
id of the inserted row, and its insertion time. -/
structure BackupCall where
  cloud : CloudState
  newId : Nat
  now : Timestamp
deriving Repr

/-- Run a sequence of `createBackup` calls. -/
def runBackups (calls : List BackupCall) (backups : List BackupRow) :
    List BackupRow :=
  calls.foldl (fun acc c => createBackup c.cloud c.newId c.now acc) backups

/-! ### General helper lemmas -/

theorem shouldEncrypt_iff (key : String) :
    shouldEncrypt key = true ↔ key ∈ ENCRYPTED_KEYS := by
  simp [shouldEncrypt]

theorem alGet_foldl_delete {α : Type} (keys : List String)
    (db : List (String × α)) (k : String) :
    alGet (keys.foldl alDelete db) k = if k ∈ keys then none else alGet db k := by
  induction keys generalizing db with
  | nil => simp
  | cons k1 rest ih =>
    simp only [List.foldl_cons]
    rw [ih]
    by_cases h : k ∈ rest
    · simp [h]
    · by_cases h2 : k1 = k
      · subst h2; simp [h, alGet_delete_self]
      · have hk : k ∉ k1 :: rest := by
          intro hk
          rcases List.mem_cons.mp hk with h3 | h3
          · exact h2 h3.symm
          · exact h h3
        rw [if_neg h, alGet_delete_ne _ h2, if_neg hk]

theorem getTimestamps_alPut_ne (db : Db) {k : String} (v : StoredValue)
    (h : k ≠ TIMESTAMPS_KEY) :
    getTimestamps (alPut db k v) = getTimestamps db := by
  unfold getTimestamps
  rw [alGet_put_ne db v h]

theorem getTimestamps_alPut_ts (db : Db) (m : List (String × Timestamp)) :
    getTimestamps (alPut db TIMESTAMPS_KEY (.ts m)) = m := by
  unfold getTimestamps
  rw [alGet_put_self]

theorem getTimestamp_setRawItemWithTimestamp_self (db : Db) {key : String}
    (value : String) (t : Timestamp) :
    getTimestamp (setRawItemWithTimestamp db key value t) key = some t := by
  unfold setRawItemWithTimestamp getTimestamp
  rw [getTimestamps_alPut_ts, alGet_put_self]

theorem getTimestamp_setRawItemWithTimestamp_ne (db : Db) {key k : String}
    (value : String) (t : Timestamp) (h : key ≠ TIMESTAMPS_KEY) (h2 : key ≠ k) :
    getTimestamp (setRawItemWithTimestamp db key value t) k = getTimestamp db k := by
  unfold setRawItemWithTimestamp getTimestamp
  rw [getTimestamps_alPut_ts, alGet_put_ne _ _ h2, getTimestamps_alPut_ne _ _ h]

theorem alGet_setRawItemWithTimestamp_self (db : Db) {key : String}
    (value : String) (t : Timestamp) (h : key ≠ TIMESTAMPS_KEY) :
    alGet (setRawItemWithTimestamp db key value t) key = some (.str value) := by
  unfold setRawItemWithTimestamp
  rw [alGet_put_ne _ _ (fun hh => h hh.symm), alGet_put_self]

theorem alGet_setRawItemWithTimestamp_ne (db : Db) {key k : String}
    (value : String) (t : Timestamp) (h : k ≠ TIMESTAMPS_KEY) (h2 : key ≠ k) :
    alGet (setRawItemWithTimestamp db key value t) k = alGet db k := by
  unfold setRawItemWithTimestamp
  rw [alGet_put_ne _ _ (fun hh => h hh.symm), alGet_put_ne _ _ h2]

/-! ### C10 — frame of `resetAllData` -/

/-- C10: `resetAllData` deletes exactly the password sentinel and the
encrypted keys and clears the in-memory password and key cache; every
other stored record — in particular the `localTimestamps` ledger and
non-encrypted keys such as `appSettings` — is left unchanged, so stale
ledger entries survive a reset. -/
theorem resetAllData_exact_frame (st : StoreState) (k : String) :
    (alGet (resetAllData st).db k
      = if k ∈ RESET_KEYS then none else alGet st.db k)
    ∧ (resetAllData st).password = none
    ∧ (resetAllData st).keyCache = []
    ∧ TIMESTAMPS_KEY ∉ RESET_KEYS
    ∧ getTimestamps (resetAllData st).db = getTimestamps st.db
    ∧ "appSettings" ∉ RESET_KEYS
    ∧ alGet (resetAllData st).db "appSettings" = alGet st.db "appSettings" := by
  have hdb : (resetAllData st).db = RESET_KEYS.foldl alDelete st.db := rfl
  have hget : ∀ k2, alGet (resetAllData st).db k2
      = if k2 ∈ RESET_KEYS then none else alGet st.db k2 := by
    intro k2
    rw [hdb]
    exact alGet_foldl_delete RESET_KEYS st.db k2
  have hts : TIMESTAMPS_KEY ∉ RESET_KEYS := by decide
  have happ : "appSettings" ∉ RESET_KEYS := by decide
  refine ⟨hget k, rfl, rfl, hts, ?_, happ, ?_⟩
  · unfold getTimestamps
    rw [hget TIMESTAMPS_KEY, if_neg hts]
  · rw [hget "appSettings", if_neg happ]

/-! ### C9 — `getItem` requires the password before the format check -/

/-- C9: for every key in `ENCRYPTED_KEYS` holding a stored value,
`getItem` throws when no password is in memory — even when the stored
value is un-migrated legacy plaintext — because the no-password check of
storage.ts line 134 precedes the encrypted-format check of line 139. -/
theorem getItem_no_password_throws (C : Cipher) (db : Db)
    (cache : List (String × String)) (key : String) (v : StoredValue)
    (hk : key ∈ ENCRYPTED_KEYS) (hv : alGet db key = some v) :
    getItem C { db := db, password := none, keyCache := cache } key
      = .error "Kein Passwort gesetzt - kann nicht entschlüsseln" := by
  have he : shouldEncrypt key = true := (shouldEncrypt_iff key).mpr hk
  unfold getItem
  rw [hv]
  simp [he]

/-- Witness for C9: the legacy plaintext `kein-chiffrat` (not in encrypted
format) under the encrypted key `lessons` still makes `getItem` throw when
the password is absent. -/
theorem getItem_no_password_throws_witness :
    ("lessons" ∈ ENCRYPTED_KEYS
      ∧ alGet [("lessons", StoredValue.str "kein-chiffrat")] "lessons"
          = some (.str "kein-chiffrat")
      ∧ looksEncrypted "kein-chiffrat" = false)
    ∧ getItem escCipher
        { db := [("lessons", StoredValue.str "kein-chiffrat")],
          password := none, keyCache := [] } "lessons"
      = .error "Kein Passwort gesetzt - kann nicht entschlüsseln" :=
  ⟨⟨by decide, by decide, by decide⟩,
    getItem_no_password_throws escCipher
      [("lessons", StoredValue.str "kein-chiffrat")] [] "lessons"
      (.str "kein-chiffrat") (by decide) (by decide)⟩

/-! ### C8 — `appSettings` is syncable but not encrypted -/

/-- The database state after `setItem` on the plain syncable key
`appSettings`: verbatim value, bumped ledger entry. -/
def appSettingsPut (db : Db) (v : String) (now : Timestamp) : Db :=
  updateTimestamp (alPut db "appSettings" (.str v)) "appSettings" now

/-- C8 counterexample: the empty string under `appSettings` is persisted
verbatim by `setItem` (the key is not encrypted), yet `uploadDataType`
performs no upsert and no remote operation for it — the falsy check of
syncService.ts line 120 treats the stored empty string as "nothing to
upload", so that verbatim value never reaches the remote
`encrypted_data` column. -/
theorem appSettings_empty_not_uploaded :
    setItem escCipher "aa" "bb" 5
        { db := [], password := none, keyCache := [] } "appSettings" ""
      = .ok { db := [("appSettings", .str ""),
                     ("localTimestamps", .ts [("appSettings", 5)])],
              password := none, keyCache := [] }
    ∧ uploadDataType 7
        [("appSettings", .str ""), ("localTimestamps", .ts [("appSettings", 5)])]
        [] "appSettings"
      = ([], []) :=
  ⟨by rfl, by rfl⟩

/-- C8 amended: `appSettings` is a syncable key but not an encrypted key,
so `setItem` persists its value verbatim (never passing through the
cipher), and for every non-empty value `uploadDataType` uploads that
verbatim value as the remote `encrypted_data` (an empty string, though
persisted verbatim, is skipped by the `if (!data) return` falsy check);
the syncable key set is not a subset of the encrypted key set. -/
theorem appSettings_sync_plaintext (C : Cipher) (salt iv : String)
    (now : Timestamp) (st : StoreState) (v : String) (cloud : CloudState)
    (hne : v ≠ "") :
    "appSettings" ∈ SYNCABLE_KEYS
    ∧ "appSettings" ∉ ENCRYPTED_KEYS
    ∧ ¬ (∀ k ∈ SYNCABLE_KEYS, k ∈ ENCRYPTED_KEYS)
    ∧ setItem C salt iv now st "appSettings" v
        = .ok { st with db := appSettingsPut st.db v now }
    ∧ alGet (appSettingsPut st.db v now) "appSettings" = some (.str v)
    ∧ uploadDataType now (appSettingsPut st.db v now) cloud "appSettings"
        = (upsertCloud cloud "appSettings" v now,
            [.upsertRow "appSettings" v now]) := by
  have he : shouldEncrypt "appSettings" = false := by decide
  have hs : SYNCABLE_KEYS.contains "appSettings" = true := by decide
  have hts : "appSettings" ≠ TIMESTAMPS_KEY := by decide
  have hget : alGet (appSettingsPut st.db v now) "appSettings" = some (.str v) := by
    unfold appSettingsPut updateTimestamp
    rw [alGet_put_ne _ _ (fun hh => hts hh.symm), alGet_put_self]
  refine ⟨by decide, by decide, by decide, ?_, hget, ?_⟩
  · simp only [setItem, he, hs, appSettingsPut, Bool.false_eq_true, if_false,
      if_true]
  · unfold uploadDataType
    rw [show getRawItem (appSettingsPut st.db v now) "appSettings"
        = some (.str v) from hget]
    simp [storedTruthy, storedText, hne]

/-- Witness for the amended C8 at the non-empty value `einstellungen`. -/
theorem appSettings_sync_plaintext_witness :
    ("einstellungen" : String) ≠ ""
    ∧ ("appSettings" ∈ SYNCABLE_KEYS
      ∧ "appSettings" ∉ ENCRYPTED_KEYS
      ∧ ¬ (∀ k ∈ SYNCABLE_KEYS, k ∈ ENCRYPTED_KEYS)
      ∧ setItem escCipher "aa" "bb" 5
          { db := [], password := none, keyCache := [] }
          "appSettings" "einstellungen"
        = .ok { db := appSettingsPut [] "einstellungen" 5, password := none,
                keyCache := [] }
      ∧ alGet (appSettingsPut [] "einstellungen" 5) "appSettings"
          = some (.str "einstellungen")
      ∧ uploadDataType 5 (appSettingsPut [] "einstellungen" 5) [] "appSettings"
          = (upsertCloud [] "appSettings" "einstellungen" 5,
              [.upsertRow "appSettings" "einstellungen" 5])) :=
  ⟨by decide,
    appSettings_sync_plaintext escCipher "aa" "bb" 5
      { db := [], password := none, keyCache := [] } "einstellungen" []
      (by decide)⟩

/-! ### C5 — the format error is swallowed by the catch-all -/

/-- C5 counterexample: on an input that does not split into 3 parts,
`decrypt` surfaces byte-for-byte the same error as a wrong-password failure
on a well-formed input — the errors are not distinguishable. -/
theorem decrypt_format_error_equals_wrong_password_error :
    (jsSplit "ab").length ≠ 3
    ∧ decrypt (escCipherW "pw") "ab" "pw"
        = decrypt (escCipherW "pw")
            (encrypt (escCipherW "pw") "pw" "aa" "bb" (.str "geheim")) "wrong"
    ∧ decrypt (escCipherW "pw") "ab" "pw"
        = .error "Entschlüsselung fehlgeschlagen - falsches Passwort?" :=
  ⟨by decide, by rfl, by rfl⟩

/-- C5 amended: `decrypt` does reject every input that does not split into
exactly 3 colon-separated parts, and the rejection is raised internally as
a distinct format error (encryption.ts line 92) — but the outer `catch` of
lines 119–122 replaces it with the same generic error that a
wrong-password decryption failure produces, so the surfaced error is not
distinct. -/
theorem decrypt_malformed_rejected (C : Cipher) (encoded pw : String)
    (h : (jsSplit encoded).length ≠ 3) :
    decryptRaw C encoded pw = .error "Ungültiges Format der verschlüsselten Daten"
    ∧ decrypt C encoded pw
        = .error "Entschlüsselung fehlgeschlagen - falsches Passwort?" := by
  have hraw : decryptRaw C encoded pw
      = .error "Ungültiges Format der verschlüsselten Daten" := by
    unfold decryptRaw
    cases hs : jsSplit encoded with
    | nil => rfl
    | cons a rest =>
      cases rest with
      | nil => rfl
      | cons b rest2 =>
        cases rest2 with
        | nil => rfl
        | cons c rest3 =>
          cases rest3 with
          | nil => exact absurd (by rw [hs]; rfl) h
          | cons d rest4 => rfl
  refine ⟨hraw, ?_⟩
  unfold decrypt
  rw [hraw]

/-- Witness for the amended C5 at the malformed input `a:b`. -/
theorem decrypt_malformed_rejected_witness :
    (jsSplit "a:b").length ≠ 3
    ∧ (decryptRaw escCipher "a:b" "pw"
          = .error "Ungültiges Format der verschlüsselten Daten"
        ∧ decrypt escCipher "a:b" "pw"
          = .error "Entschlüsselung fehlgeschlagen - falsches Passwort?") :=
  ⟨by decide, decrypt_malformed_rejected escCipher "a:b" "pw" (by decide)⟩

/-! ### C3 — encrypt/decrypt round-trip -/

/-- What `decrypt` actually returns for a plaintext `P`: the `JSON.parse`
of `P` when `P` parses, otherwise `P` itself. -/
def decryptResultOf (P : String) : JsValue :=
  match jsonParse P with
  | some v => v
  | none => .str P

/-- Core round-trip computation shared by the round-trip theorem and the
migration analysis: decrypting an encryption of a non-empty plaintext
yields `decryptResultOf P`. -/
theorem decrypt_encrypt_eq (C : Cipher) (pw salt iv P : String)
    (hC : GoodCipher C pw) (hs : noColonS salt) (hi : noColonS iv)
    (hne : P ≠ "") :
    decrypt C (encrypt C pw salt iv (.str P)) pw = .ok (decryptResultOf P) := by
  have hplain : plainOfJs (.str P) = P := rfl
  have hraw : decryptRaw C (encrypt C pw salt iv (.str P)) pw
      = .ok (decryptResultOf P) := by
    unfold decryptRaw encrypt
    rw [hplain, jsSplit_three hs hi (hC.encNoColon salt iv P)]
    show (if C.dec pw salt iv (C.enc pw salt iv P) = "" then _ else _) = _
    rw [hC.roundtrip salt iv P, if_neg hne]
    unfold decryptResultOf
    cases jsonParse P <;> rfl
  unfold decrypt
  rw [hraw]

/-- C3 counterexample: the round-trip fails for the empty string (the
decryption result is rejected as falsy, encryption.ts line 110) and for the
string `"42"` (the `JSON.parse` of line 115 turns it into the number 42). -/
theorem decrypt_encrypt_not_identity :
    decrypt escCipher (encrypt escCipher "pw" "aa" "bb" (.str "")) "pw"
      = .error "Entschlüsselung fehlgeschlagen - falsches Passwort?"
    ∧ decrypt escCipher (encrypt escCipher "pw" "aa" "bb" (.str "42")) "pw"
      = .ok (.num 42)
    ∧ (Except.ok (JsValue.num 42) : Except String JsValue) ≠ .ok (.str "42") :=
  ⟨by rfl, by rfl, fun hh => absurd (Except.ok.inj hh) (by decide)⟩

/-- C3 amended: for a correct cipher and colon-free fresh salt/iv,
`decrypt(encrypt(P, pw), pw)` returns the `JSON.parse` of `P` when `P` is
parseable JSON and `P` itself otherwise — so the round-trip is the
identity exactly on non-empty strings that are not JSON-parseable, while
the empty string fails and parseable strings come back as the parsed
value. -/
theorem decrypt_encrypt_roundtrip (C : Cipher) (pw salt iv P : String)
    (hC : GoodCipher C pw) (hs : noColonS salt) (hi : noColonS iv)
    (hne : P ≠ "") :
    decrypt C (encrypt C pw salt iv (.str P)) pw = .ok (decryptResultOf P)
    ∧ (jsonParse P = none → decryptResultOf P = .str P) := by
  refine ⟨decrypt_encrypt_eq C pw salt iv P hC hs hi hne, ?_⟩
  intro hp
  unfold decryptResultOf
  rw [hp]

/-- Witness for the amended C3 at the non-JSON plaintext `hallo`. -/
theorem decrypt_encrypt_roundtrip_witness :
    noColonS "aa" ∧ noColonS "bb" ∧ "hallo" ≠ ""
    ∧ decrypt escCipher (encrypt escCipher "pw" "aa" "bb" (.str "hallo")) "pw"
        = .ok (.str "hallo") := by
  refine ⟨by decide, by decide, by decide, ?_⟩
  have h := (decrypt_encrypt_roundtrip escCipher "pw" "aa" "bb" "hallo"
    (escCipher_good "pw") (by decide) (by decide) (by decide)).1
  rw [h]
  rfl

/-! ### C7 — idempotence of `migrateUnencryptedData` -/

theorem tsStringify_ne_empty (m : List (String × Timestamp)) :
    tsStringify m ≠ "" := by
  intro h
  have hd := congrArg String.data h
  simp [tsStringify, String.data_append] at hd

/-- An encryption of any plaintext passes the 3-segment format test. -/
theorem looksEncrypted_encrypt (C : Cipher) (pw salt iv s : String)
    (hC : GoodCipher C pw) (hs : noColonS salt) (hi : noColonS iv) :
    looksEncrypted (encrypt C pw salt iv (.str s)) = true := by
  have hsplit := jsSplit_three hs hi (hC.encNoColon salt iv s)
  have hmem : ':' ∈ (salt ++ ":" ++ iv ++ ":" ++ C.enc pw salt iv s).data := by
    simp [String.data_append]
  unfold looksEncrypted encrypt
  show ((salt ++ ":" ++ iv ++ ":" ++ C.enc pw salt iv s).data.contains ':'
      && (jsSplit (salt ++ ":" ++ iv ++ ":" ++ C.enc pw salt iv s)).length == 3)
      = true
  rw [hsplit,
    show (salt ++ ":" ++ iv ++ ":" ++ C.enc pw salt iv s).data.contains ':' = true
      from List.elem_eq_true_of_mem hmem]
  rfl

/-- A stored string the migration loop leaves alone: 3-segment format and a
successful trial decrypt (storage.ts lines 225–231). -/
def wellEncrypted (C : Cipher) (pw s : String) : Prop :=
  looksEncrypted s = true ∧ ∃ v, decrypt C s pw = .ok v

/-- The per-key post-condition of a migration run. -/
def migratedKey (C : Cipher) (pw : String) (db : Db) (key : String) : Prop :=
  alGet db key = none
  ∨ ∃ s, alGet db key = some (.str s) ∧ wellEncrypted C pw s

/-- A freshly encrypted non-empty plaintext trial-decrypts successfully. -/
theorem wellEncrypted_encrypt (C : Cipher) (pw salt iv s : String)
    (hC : GoodCipher C pw) (hs : noColonS salt) (hi : noColonS iv)
    (hne : s ≠ "") :
    wellEncrypted C pw (encrypt C pw salt iv (.str s)) := by
  refine ⟨looksEncrypted_encrypt C pw salt iv s hC hs hi, ?_⟩
  exact ⟨decryptResultOf s, decrypt_encrypt_eq C pw salt iv s hC hs hi hne⟩

theorem migrateKeyStep_skip {C : Cipher} {pw : String} (salt iv : String)
    {db : Db} {key : String} (h : migratedKey C pw db key) :
    migrateKeyStep C pw salt iv db key = db := by
  unfold migrateKeyStep
  rcases h with h | ⟨s, hv, hfmt, v, hdec⟩
  · rw [h]
  · rw [hv]
    simp only [hfmt, if_true]
    rw [hdec]

theorem migrateKeyStep_get_ne (C : Cipher) (pw salt iv : String) (db : Db)
    {key k : String} (h : key ≠ k) :
    alGet (migrateKeyStep C pw salt iv db key) k = alGet db k := by
  unfold migrateKeyStep
  cases hv : alGet db key with
  | none => rfl
  | some v =>
    cases v with
    | str s =>
      by_cases hf : looksEncrypted s = true
      · simp only [hf, if_true]
        cases hd : decrypt C s pw with
        | ok v2 => rfl
        | error e => exact alGet_put_ne db _ h
      · simp only [hf, if_false, Bool.false_eq_true]
        exact alGet_put_ne db _ h
    | ts m => exact alGet_put_ne db _ h

/-- After processing a key whose value is not the stored empty string, the
key satisfies the migration post-condition. -/
theorem migrateKeyStep_establishes (C : Cipher) (pw salt iv : String)
    (db : Db) (key : String) (hC : GoodCipher C pw)
    (hs : noColonS salt) (hi : noColonS iv)
    (hne : alGet db key ≠ some (.str "")) :
    migratedKey C pw (migrateKeyStep C pw salt iv db key) key := by
  unfold migrateKeyStep
  cases hv : alGet db key with
  | none => exact Or.inl (by rw [hv])
  | some v =>
    cases v with
    | str s =>
      have hsne : s ≠ "" := by
        intro hcon
        exact hne (by rw [hv, hcon])
      by_cases hf : looksEncrypted s = true
      · simp only [hf, if_true]
        cases hd : decrypt C s pw with
        | ok v2 => exact Or.inr ⟨s, by rw [hv], hf, v2, hd⟩
        | error e =>
          exact Or.inr ⟨_, alGet_put_self db key _,
            wellEncrypted_encrypt C pw salt iv s hC hs hi hsne⟩
      · simp only [hf, if_false, Bool.false_eq_true]
        exact Or.inr ⟨_, alGet_put_self db key _,
          wellEncrypted_encrypt C pw salt iv s hC hs hi hsne⟩
    | ts m =>
      exact Or.inr ⟨_, alGet_put_self db key _,
        wellEncrypted_encrypt C pw salt iv (tsStringify m) hC hs hi
          (tsStringify_ne_empty m)⟩

theorem migrateFold_get_ne (C : Cipher) (pw : String)
    (rnd : Nat → String × String) (L : List (Nat × String)) (db : Db)
    {k : String} (h : ∀ p ∈ L, p.2 ≠ k) :
    alGet (migrateFold C pw rnd L db) k = alGet db k := by
  induction L generalizing db with
  | nil => rfl
  | cons p rest ih =>
    show alGet (migrateFold C pw rnd rest (migrateKeyStep C pw _ _ db p.2)) k = _
    rw [ih _ (fun q hq => h q (List.mem_cons_of_mem p hq)),
      migrateKeyStep_get_ne C pw _ _ db (h p (List.mem_cons_self p rest))]

/-- A migration run establishes the post-condition for every processed key,
provided the cipher is correct, the randomness stream yields colon-free
salts and ivs, the processed keys are distinct, and no processed key stores
the empty string. -/
theorem migrateFold_establishes (C : Cipher) (pw : String)
    (rnd : Nat → String × String) (L : List (Nat × String)) (db : Db)
    (hC : GoodCipher C pw)
    (hr : ∀ i, noColonS (rnd i).1 ∧ noColonS (rnd i).2)
    (hnd : (L.map Prod.snd).Nodup)
    (hne : ∀ p ∈ L, alGet db p.2 ≠ some (.str "")) :
    ∀ p ∈ L, migratedKey C pw (migrateFold C pw rnd L db) p.2 := by
  induction L generalizing db with
  | nil => intro p hp; cases hp
  | cons q rest ih =>
    intro p hp
    have hstep : migratedKey C pw (migrateKeyStep C pw (rnd q.1).1 (rnd q.1).2 db q.2) q.2 :=
      migrateKeyStep_establishes C pw _ _ db q.2 hC (hr q.1).1 (hr q.1).2
        (hne q (List.mem_cons_self q rest))
    have hqrest : ∀ r ∈ rest, r.2 ≠ q.2 := by
      intro r hr2 hcon
      have : q.2 ∈ rest.map Prod.snd := hcon ▸ List.mem_map_of_mem Prod.snd hr2
      exact (List.nodup_cons.mp hnd).1 this
    have hne2 : ∀ r ∈ rest,
        alGet (migrateKeyStep C pw (rnd q.1).1 (rnd q.1).2 db q.2) r.2
          ≠ some (.str "") := by
      intro r hr2
      rw [migrateKeyStep_get_ne C pw _ _ db (fun hc => hqrest r hr2 hc.symm)]
      exact hne r (List.mem_cons_of_mem q hr2)
    rcases List.mem_cons.mp hp with hpq | hpr
    · subst hpq
      show migratedKey C pw (migrateFold C pw rnd rest _) p.2
      unfold migratedKey
      rw [migrateFold_get_ne C pw rnd rest _ (fun r hr2 => hqrest r hr2)]
      exact hstep
    · exact ih _ (List.nodup_cons.mp hnd).2 hne2 p hpr

/-- A migration run over keys that already satisfy the post-condition is
the identity, whatever fresh randomness it draws. -/
theorem migrateFold_id (C : Cipher) (pw : String)
    (rnd : Nat → String × String) (L : List (Nat × String)) (db : Db)
    (h : ∀ p ∈ L, migratedKey C pw db p.2) :
    migrateFold C pw rnd L db = db := by
  induction L with
  | nil => rfl
  | cons q rest ih =>
    show migrateFold C pw rnd rest (migrateKeyStep C pw _ _ db q.2) = db
    rw [migrateKeyStep_skip _ _ (h q (List.mem_cons_self q rest))]
    exact ih (fun p hp => h p (List.mem_cons_of_mem q hp))

/-- C7 counterexample: with the empty string stored under the encrypted key
`lessons`, a second migration run rewrites the record with fresh salt/iv
(the trial decrypt of an encrypted empty string fails, encryption.ts line
110), so the storage state after run 2 differs from the state after
run 1. -/
theorem migrate_twice_differs :
    migrateUnencryptedData escCipher (fun _ => ("aa", "bb"))
        { db := [("lessons", .str "")], password := some "pw", keyCache := [] }
      = .ok { db := [("lessons", .str "aa:bb:")], password := some "pw",
              keyCache := [] }
    ∧ migrateUnencryptedData escCipher (fun _ => ("cc", "dd"))
        { db := [("lessons", .str "aa:bb:")], password := some "pw",
          keyCache := [] }
      = .ok { db := [("lessons", .str "cc:dd:aa#cbb#c")], password := some "pw",
              keyCache := [] }
    ∧ (StoredValue.str "cc:dd:aa#cbb#c") ≠ .str "aa:bb:" :=
  ⟨by rfl, by rfl, by decide⟩

/-- C7 amended: with an active password session, a correct cipher,
colon-free fresh randomness and no encrypted key holding the stored empty
string, running `migrateUnencryptedData` twice back-to-back leaves the
persistent storage state after the second call identical to the state
after the first call: values that trial-decrypt successfully are skipped,
everything else was re-written as ciphertext by the first run. -/
theorem migrate_idempotent (C : Cipher) (pw : String)
    (rnd1 rnd2 : Nat → String × String) (st : StoreState)
    (hpw : st.password = some pw)
    (hC : GoodCipher C pw)
    (hr1 : ∀ i, noColonS (rnd1 i).1 ∧ noColonS (rnd1 i).2)
    (hne : ∀ k ∈ ENCRYPTED_KEYS, alGet st.db k ≠ some (.str "")) :
    ∃ st1, migrateUnencryptedData C rnd1 st = .ok st1
      ∧ migrateUnencryptedData C rnd2 st1 = .ok st1 := by
  refine ⟨{ st with db := migrateDb C pw rnd1 st.db }, ?_, ?_⟩
  · unfold migrateUnencryptedData
    rw [hpw]
  · unfold migrateUnencryptedData
    simp only
    rw [hpw]
    simp only
    have hmig : ∀ p ∈ ENCRYPTED_KEYS.enum,
        migratedKey C pw (migrateDb C pw rnd1 st.db) p.2 := by
      unfold migrateDb
      refine migrateFold_establishes C pw rnd1 ENCRYPTED_KEYS.enum st.db hC hr1
        ?_ ?_
      · rw [List.enum_map_snd]
        decide
      · intro p hp
        have : p.2 ∈ ENCRYPTED_KEYS := by
          rw [← List.enum_map_snd ENCRYPTED_KEYS]
          exact List.mem_map_of_mem Prod.snd hp
        exact hne p.2 this
    have : migrateDb C pw rnd2 (migrateDb C pw rnd1 st.db)
        = migrateDb C pw rnd1 st.db :=
      migrateFold_id C pw rnd2 ENCRYPTED_KEYS.enum _ hmig
    rw [this]

/-- Witness for the amended C7: one plaintext record under `lessons`
migrates to ciphertext once and is left untouched by the second run. -/
theorem migrate_idempotent_witness :
    (∀ k ∈ ENCRYPTED_KEYS,
        alGet [("lessons", StoredValue.str "daten")] k ≠ some (.str ""))
    ∧ ∃ st1, migrateUnencryptedData escCipher (fun _ => ("aa", "bb"))
          { db := [("lessons", .str "daten")], password := some "pw",
            keyCache := [] } = .ok st1
        ∧ migrateUnencryptedData escCipher (fun _ => ("cc", "dd")) st1 = .ok st1 :=
  ⟨by decide,
    migrate_idempotent escCipher "pw" (fun _ => ("aa", "bb"))
      (fun _ => ("cc", "dd"))
      { db := [("lessons", .str "daten")], password := some "pw", keyCache := [] }
      rfl (escCipher_good "pw")
      (fun _ => ⟨show noColonS "aa" from by decide, show noColonS "bb" from by decide⟩)
      (by decide)⟩

/-! ### Sync-loop lemmas -/

theorem syncKeyStep_uploaded (now : Timestamp)
    (lsnap csnap : String → Option Timestamp) (st : SyncLoopState) (key : String) :
    (syncKeyStep now lsnap csnap st key).uploaded
      = st.uploaded
        ++ (if syncDecision (lsnap key) (csnap key) = .upload then [key] else []) := by
  unfold syncKeyStep
  cases hd : syncDecision (lsnap key) (csnap key) <;> simp [hd]

theorem syncKeyStep_downloaded (now : Timestamp)
    (lsnap csnap : String → Option Timestamp) (st : SyncLoopState) (key : String) :
    (syncKeyStep now lsnap csnap st key).downloaded
      = st.downloaded
        ++ (if syncDecision (lsnap key) (csnap key) = .download then [key] else []) := by
  unfold syncKeyStep
  cases hd : syncDecision (lsnap key) (csnap key) <;> simp [hd]

theorem syncFold_uploaded (now : Timestamp)
    (lsnap csnap : String → Option Timestamp) (keys : List String)
    (st : SyncLoopState) :
    (keys.foldl (syncKeyStep now lsnap csnap) st).uploaded
      = st.uploaded
        ++ keys.filter (fun k => decide (syncDecision (lsnap k) (csnap k) = .upload)) := by
  induction keys generalizing st with
  | nil => simp
  | cons k rest ih =>
    simp only [List.foldl_cons, List.filter_cons]
    rw [ih, syncKeyStep_uploaded]
    by_cases hd : syncDecision (lsnap k) (csnap k) = .upload <;>
      simp [hd]

theorem syncFold_downloaded (now : Timestamp)
    (lsnap csnap : String → Option Timestamp) (keys : List String)
    (st : SyncLoopState) :
    (keys.foldl (syncKeyStep now lsnap csnap) st).downloaded
      = st.downloaded
        ++ keys.filter (fun k => decide (syncDecision (lsnap k) (csnap k) = .download)) := by
  induction keys generalizing st with
  | nil => simp
  | cons k rest ih =>
    simp only [List.foldl_cons, List.filter_cons]
    rw [ih, syncKeyStep_downloaded]
    by_cases hd : syncDecision (lsnap k) (csnap k) = .download <;>
      simp [hd]

theorem syncKeyStep_cloudGet_ne (now : Timestamp)
    (lsnap csnap : String → Option Timestamp) (st : SyncLoopState)
    {key k : String} (h : key ≠ k) :
    cloudGet (syncKeyStep now lsnap csnap st key).cloud k = cloudGet st.cloud k := by
  unfold syncKeyStep
  cases hd : syncDecision (lsnap key) (csnap key) with
  | upload =>
    show cloudGet (uploadDataType now st.db st.cloud key).1 k = _
    unfold uploadDataType
    cases getRawItem st.db key with
    | none => rfl
    | some v =>
      show cloudGet (if storedTruthy v = true
          then (upsertCloud st.cloud key (storedText v) now,
                [RemoteOp.upsertRow key (storedText v) now])
          else (st.cloud, [])).1 k = cloudGet st.cloud k
      by_cases htr : storedTruthy v = true
      · rw [if_pos htr]
        exact cloudGet_upsert_ne st.cloud _ _ h
      · rw [if_neg htr]
  | download => rfl
  | skip => rfl

theorem syncKeyStep_rawGet_ne (now : Timestamp)
    (lsnap csnap : String → Option Timestamp) (st : SyncLoopState)
    {key k : String} (h : key ≠ k) (hts : k ≠ TIMESTAMPS_KEY) :
    alGet (syncKeyStep now lsnap csnap st key).db k = alGet st.db k := by
  unfold syncKeyStep
  cases hd : syncDecision (lsnap key) (csnap key) with
  | upload => rfl
  | download =>
    show alGet (downloadDataType st.cloud st.db key).1 k = _
    unfold downloadDataType
    cases cloudGet st.cloud key with
    | none => rfl
    | some row => exact alGet_setRawItemWithTimestamp_ne st.db _ _ hts h
  | skip => rfl

theorem syncKeyStep_ledger_ne (now : Timestamp)
    (lsnap csnap : String → Option Timestamp) (st : SyncLoopState)
    {key k : String} (h : key ≠ k) (hkts : key ≠ TIMESTAMPS_KEY) :
    getTimestamp (syncKeyStep now lsnap csnap st key).db k
      = getTimestamp st.db k := by
  unfold syncKeyStep
  cases hd : syncDecision (lsnap key) (csnap key) with
  | upload => rfl
  | download =>
    show getTimestamp (downloadDataType st.cloud st.db key).1 k = _
    unfold downloadDataType
    cases cloudGet st.cloud key with
    | none => rfl
    | some row => exact getTimestamp_setRawItemWithTimestamp_ne st.db _ _ hkts h
  | skip => rfl

theorem syncFold_cloudGet_ne (now : Timestamp)
    (lsnap csnap : String → Option Timestamp) (keys : List String)
    (st : SyncLoopState) {k : String} (h : k ∉ keys) :
    cloudGet ((keys.foldl (syncKeyStep now lsnap csnap) st)).cloud k
      = cloudGet st.cloud k := by
  induction keys generalizing st with
  | nil => rfl
  | cons k1 rest ih =>
    simp only [List.foldl_cons]
    rw [ih _ (fun hm => h (List.mem_cons_of_mem k1 hm)),
      syncKeyStep_cloudGet_ne now lsnap csnap st
        (fun hc => h (by rw [← hc]; exact List.mem_cons_self k1 rest))]

theorem syncFold_rawGet_ne (now : Timestamp)
    (lsnap csnap : String → Option Timestamp) (keys : List String)
    (st : SyncLoopState) {k : String} (h : k ∉ keys) (hts : k ≠ TIMESTAMPS_KEY) :
    alGet ((keys.foldl (syncKeyStep now lsnap csnap) st)).db k
      = alGet st.db k := by
  induction keys generalizing st with
  | nil => rfl
  | cons k1 rest ih =>
    simp only [List.foldl_cons]
    rw [ih _ (fun hm => h (List.mem_cons_of_mem k1 hm)),
      syncKeyStep_rawGet_ne now lsnap csnap st
        (fun hc => h (by rw [← hc]; exact List.mem_cons_self k1 rest)) hts]

theorem syncFold_ledger_ne (now : Timestamp)
    (lsnap csnap : String → Option Timestamp) (keys : List String)
    (st : SyncLoopState) {k : String} (h : k ∉ keys)
    (hkeys : ∀ key ∈ keys, key ≠ TIMESTAMPS_KEY) :
    getTimestamp ((keys.foldl (syncKeyStep now lsnap csnap) st)).db k
      = getTimestamp st.db k := by
  induction keys generalizing st with
  | nil => rfl
  | cons k1 rest ih =>
    simp only [List.foldl_cons]
    rw [ih _ (fun hm => h (List.mem_cons_of_mem k1 hm))
        (fun key hm => hkeys key (List.mem_cons_of_mem k1 hm)),
      syncKeyStep_ledger_ne now lsnap csnap st
        (fun hc => h (by rw [← hc]; exact List.mem_cons_self k1 rest))
        (hkeys k1 (List.mem_cons_self k1 rest))]

/-- The step at an uploading key whose stored value is JS-truthy: the
cloud row is replaced by the local raw value stamped with the current
time; the local database is untouched. -/
theorem syncKeyStep_upload_at (now : Timestamp)
    (lsnap csnap : String → Option Timestamp) (st : SyncLoopState)
    {key : String} {v : StoredValue}
    (hd : syncDecision (lsnap key) (csnap key) = .upload)
    (hv : alGet st.db key = some v) (htr : storedTruthy v = true) :
    cloudGet (syncKeyStep now lsnap csnap st key).cloud key
        = some ⟨key, storedText v, now⟩
    ∧ (syncKeyStep now lsnap csnap st key).db = st.db := by
  unfold syncKeyStep
  rw [hd]
  refine ⟨?_, rfl⟩
  show cloudGet (uploadDataType now st.db st.cloud key).1 key = _
  unfold uploadDataType getRawItem
  rw [hv]
  show cloudGet (if storedTruthy v = true
      then (upsertCloud st.cloud key (storedText v) now,
            [RemoteOp.upsertRow key (storedText v) now])
      else (st.cloud, [])).1 key = _
  rw [if_pos htr]
  exact cloudGet_upsert_self st.cloud key _ now

/-- The step at a downloading key: the remote value and the remote
timestamp are written locally; the cloud is untouched. -/
theorem syncKeyStep_download_at (now : Timestamp)
    (lsnap csnap : String → Option Timestamp) (st : SyncLoopState)
    {key : String} {row : CloudRow}
    (hd : syncDecision (lsnap key) (csnap key) = .download)
    (hrow : cloudGet st.cloud key = some row)
    (hts : key ≠ TIMESTAMPS_KEY) :
    alGet (syncKeyStep now lsnap csnap st key).db key
        = some (.str row.encrypted_data)
    ∧ getTimestamp (syncKeyStep now lsnap csnap st key).db key
        = some row.updated_at
    ∧ (syncKeyStep now lsnap csnap st key).cloud = st.cloud := by
  unfold syncKeyStep
  rw [hd]
  refine ⟨?_, ?_, rfl⟩
  · show alGet (downloadDataType st.cloud st.db key).1 key = _
    unfold downloadDataType
    rw [hrow]
    exact alGet_setRawItemWithTimestamp_self st.db _ _ hts
  · show getTimestamp (downloadDataType st.cloud st.db key).1 key = _
    unfold downloadDataType
    rw [hrow]
    exact getTimestamp_setRawItemWithTimestamp_self st.db _ _

/-! ### C2 — only `syncAll` is guarded by the latch -/

/-- C2 counterexample: with the `isSyncing` latch set and local data for
`classes`, `uploadAll` still performs a remote upsert and returns a
success result — it is neither rejected nor queued. -/
theorem uploadAll_ignores_latch :
    (uploadAll 5 true [] [("classes", .str "daten")]).2.2
        = [.upsertRow "classes" "daten" 5]
    ∧ (uploadAll 5 true [] [("classes", .str "daten")]).1 ≠ syncBusyResult
    ∧ (uploadAll 5 true [] [("classes", .str "daten")]).1.success = true := by
  refine ⟨by rfl, ?_, by rfl⟩
  intro h
  have hs : true = false := congrArg SyncResult.success h
  exact Bool.noConfusion hs

/-- C2 amended: the `isSyncing` latch guards only `syncAll`: a second
`syncAll` while the latch is set returns the rejection result immediately
and performs no remote operations and no state change; `uploadAll` and
`downloadAll` neither check nor set the latch, so they behave identically
whether or not a sync is in progress. -/
theorem latch_guards_only_syncAll (now : Timestamp) (cloud : CloudState)
    (db : Db) :
    syncAll now true cloud db = (syncBusyResult, cloud, db, [])
    ∧ uploadAll now true cloud db = uploadAll now false cloud db
    ∧ downloadAll true cloud db = downloadAll false cloud db :=
  ⟨by unfold syncAll; rw [if_pos rfl], rfl, rfl⟩

/-! ### The `syncAll` loop output -/

/-- The final loop accumulator of a non-rejected `syncAll` run. -/
def syncRun (now : Timestamp) (cloud : CloudState) (db : Db) : SyncLoopState :=
  SYNCABLE_KEYS.foldl (syncKeyStep now (lsnapOf db) (csnapOf cloud))
    { cloud := cloud, db := db, uploaded := [], downloaded := [],
      ops := [.selectTimestamps] }

theorem syncAll_not_busy (now : Timestamp) (cloud : CloudState) (db : Db) :
    syncAll now false cloud db
      = ({ success := true, uploaded := (syncRun now cloud db).uploaded,
           downloaded := (syncRun now cloud db).downloaded, errors := [] },
          (syncRun now cloud db).cloud, (syncRun now cloud db).db,
          (syncRun now cloud db).ops) := rfl

theorem syncRun_uploaded (now : Timestamp) (cloud : CloudState) (db : Db) :
    (syncRun now cloud db).uploaded
      = SYNCABLE_KEYS.filter
          (fun k => decide (syncDecision (lsnapOf db k) (csnapOf cloud k) = .upload)) := by
  unfold syncRun
  rw [syncFold_uploaded]
  simp

theorem syncRun_downloaded (now : Timestamp) (cloud : CloudState) (db : Db) :
    (syncRun now cloud db).downloaded
      = SYNCABLE_KEYS.filter
          (fun k => decide (syncDecision (lsnapOf db k) (csnapOf cloud k) = .download)) := by
  unfold syncRun
  rw [syncFold_downloaded]
  simp

/-- Decomposition facts shared by the per-key characterisations. -/
theorem syncable_split {k : String} (hk : k ∈ SYNCABLE_KEYS) :
    ∃ s t, SYNCABLE_KEYS = s ++ k :: t ∧ k ∉ s ∧ k ∉ t := by
  obtain ⟨s, t, hst⟩ := List.append_of_mem hk
  have hnd : SYNCABLE_KEYS.Nodup := by decide
  rw [hst] at hnd
  refine ⟨s, t, hst, ?_, ?_⟩
  · intro hks
    exact (List.disjoint_of_nodup_append hnd) hks (List.mem_cons_self k t)
  · exact (List.nodup_cons.mp hnd.of_append_right).1

theorem syncable_ne_timestamps {k : String} (hk : k ∈ SYNCABLE_KEYS) :
    k ≠ TIMESTAMPS_KEY := by
  have : ∀ x ∈ SYNCABLE_KEYS, x ≠ TIMESTAMPS_KEY := by decide
  exact this k hk

/-- Cloud row after the run for a key whose decision is upload and whose
local raw value is present and JS-truthy. -/
theorem syncRun_cloudGet_upload (now : Timestamp) (cloud : CloudState)
    (db : Db) {k : String} {v : StoredValue}
    (hk : k ∈ SYNCABLE_KEYS)
    (hdec : syncDecision (lsnapOf db k) (csnapOf cloud k) = .upload)
    (hv : alGet db k = some v) (htr : storedTruthy v = true) :
    cloudGet (syncRun now cloud db).cloud k = some ⟨k, storedText v, now⟩ := by
  obtain ⟨s, t, hst, hks, hkt⟩ := syncable_split hk
  have hkts := syncable_ne_timestamps hk
  unfold syncRun
  rw [hst, List.foldl_append, List.foldl_cons]
  rw [syncFold_cloudGet_ne _ _ _ t _ hkt]
  have hpre : alGet ((s.foldl (syncKeyStep now (lsnapOf db) (csnapOf cloud))
      { cloud := cloud, db := db, uploaded := [], downloaded := [],
        ops := [.selectTimestamps] })).db k = some v := by
    rw [syncFold_rawGet_ne _ _ _ s _ hks hkts]
    exact hv
  exact (syncKeyStep_upload_at now _ _ _ hdec hpre htr).1

/-- Local database and ledger after the run for a key whose decision is
download and whose cloud row is present; the cloud row itself is
untouched. -/
theorem syncRun_download (now : Timestamp) (cloud : CloudState) (db : Db)
    {k : String} {row : CloudRow}
    (hk : k ∈ SYNCABLE_KEYS)
    (hdec : syncDecision (lsnapOf db k) (csnapOf cloud k) = .download)
    (hrow : cloudGet cloud k = some row) :
    alGet (syncRun now cloud db).db k = some (.str row.encrypted_data)
    ∧ getTimestamp (syncRun now cloud db).db k = some row.updated_at
    ∧ cloudGet (syncRun now cloud db).cloud k = some row := by
  obtain ⟨s, t, hst, hks, hkt⟩ := syncable_split hk
  have hkts := syncable_ne_timestamps hk
  have hts_keys : ∀ key ∈ SYNCABLE_KEYS, key ≠ TIMESTAMPS_KEY := by decide
  unfold syncRun
  rw [hst, List.foldl_append, List.foldl_cons]
  have hpre_cloud : cloudGet ((s.foldl (syncKeyStep now (lsnapOf db) (csnapOf cloud))
      { cloud := cloud, db := db, uploaded := [], downloaded := [],
        ops := [.selectTimestamps] })).cloud k = some row := by
    rw [syncFold_cloudGet_ne _ _ _ s _ hks]
    exact hrow
  have hstep := syncKeyStep_download_at now (lsnapOf db) (csnapOf cloud) _
    hdec hpre_cloud hkts
  have ht_keys : ∀ key ∈ t, key ≠ TIMESTAMPS_KEY := by
    intro key hm
    apply hts_keys key
    rw [hst]
    exact List.mem_append_right s (List.mem_cons_of_mem k hm)
  refine ⟨?_, ?_, ?_⟩
  · rw [syncFold_rawGet_ne _ _ _ t _ hkt hkts]
    exact hstep.1
  · rw [syncFold_ledger_ne _ _ _ t _ hkt ht_keys]
    exact hstep.2.1
  · rw [syncFold_cloudGet_ne _ _ _ t _ hkt, hstep.2.2]
    exact hpre_cloud

/-! ### C1 — upload path of `syncAll` -/

/-- C1 corrected behaviour, proved generally: when the local ledger holds
`L` for a syncable key `k`, every remote timestamp for `k` is older than
`L` (or the remote row is absent), and local raw data is present and
JS-truthy (non-empty — `if (!data) return`, syncService.ts line 120), then
after `syncAll` the remote row for `k` holds the local raw data, `k` is in
`result.uploaded` and not in `result.downloaded` — but the remote
`updated_at` is the upload-time clock reading `now` (syncService.ts line
122), not the ledger timestamp `L`. -/
theorem syncAll_upload_newer (now : Timestamp) (cloud : CloudState) (db : Db)
    (k : String) (v : StoredValue) (L : Timestamp)
    (hk : k ∈ SYNCABLE_KEYS)
    (hl : getTimestamp db k = some L)
    (hc : ∀ c, csnapOf cloud k = some c → c < L)
    (hv : alGet db k = some v) (htr : storedTruthy v = true) :
    cloudGet (syncAll now false cloud db).2.1 k = some ⟨k, storedText v, now⟩
    ∧ k ∈ (syncAll now false cloud db).1.uploaded
    ∧ k ∉ (syncAll now false cloud db).1.downloaded := by
  have hdec : syncDecision (lsnapOf db k) (csnapOf cloud k) = .upload := by
    show syncDecision (getTimestamp db k) (csnapOf cloud k) = .upload
    rw [hl]
    cases hcs : csnapOf cloud k with
    | none => rfl
    | some c =>
      have hlt := hc c hcs
      simp [syncDecision, hlt]
  rw [syncAll_not_busy]
  refine ⟨syncRun_cloudGet_upload now cloud db hk hdec hv htr, ?_, ?_⟩
  · rw [syncRun_uploaded]
    exact List.mem_filter.mpr ⟨hk, by rw [hdec]; rfl⟩
  · rw [syncRun_downloaded]
    intro hmem
    have hd := (List.mem_filter.mp hmem).2
    rw [hdec] at hd
    exact absurd (of_decide_eq_true hd) (by intro hcon; cases hcon)

/-- Witness for the corrected C1 in the spec's concrete scenario: ledger
`classes -> 2024-01-01T10:00:00Z` (epoch 1704103200000), no remote row;
after `syncAll` the remote `classes` row holds the local blob with the
upload time as `updated_at`, and `classes` is uploaded, not downloaded. -/
theorem syncAll_upload_newer_witness :
    cloudGet (syncAll 1704103260000 false []
        [("classes", .str "klassen-blob"),
         ("localTimestamps", .ts [("classes", 1704103200000)])]).2.1 "classes"
      = some ⟨"classes", "klassen-blob", 1704103260000⟩
    ∧ "classes" ∈ (syncAll 1704103260000 false []
        [("classes", .str "klassen-blob"),
         ("localTimestamps", .ts [("classes", 1704103200000)])]).1.uploaded
    ∧ "classes" ∉ (syncAll 1704103260000 false []
        [("classes", .str "klassen-blob"),
         ("localTimestamps", .ts [("classes", 1704103200000)])]).1.downloaded :=
  syncAll_upload_newer 1704103260000 []
    [("classes", .str "klassen-blob"),
     ("localTimestamps", .ts [("classes", 1704103200000)])]
    "classes" (.str "klassen-blob") 1704103200000
    (by decide) (by decide)
    (fun c hcs => nomatch hcs)
    (by decide) (by decide)

/-- C1 counterexample: in exactly the spec's scenario the remote
`updated_at` after `syncAll` is the upload time, which differs from the
local ledger timestamp `L = 2024-01-01T10:00:00Z`. -/
theorem syncAll_upload_timestamp_is_now :
    (cloudGet (syncAll 1704103260000 false []
        [("classes", .str "klassen-blob"),
         ("localTimestamps", .ts [("classes", 1704103200000)])]).2.1
        "classes").map CloudRow.updated_at = some 1704103260000
    ∧ getTimestamp
        [("classes", .str "klassen-blob"),
         ("localTimestamps", .ts [("classes", 1704103200000)])] "classes"
        = some 1704103200000
    ∧ (1704103260000 : Int) ≠ 1704103200000 := by
  refine ⟨by rfl, by rfl, by decide⟩

/-! ### C4 — download path writes the remote timestamp -/

/-- C4: when the remote timestamp for a syncable key `k` is newer than the
local ledger entry (or the local entry is absent), `syncAll` writes the
remote value locally and sets the ledger entry for `k` to the remote
`updated_at` — not to the current time — so an immediately following sync
does not re-upload `k`. -/
theorem syncAll_download_remote_timestamp (now now2 : Timestamp)
    (cloud : CloudState) (db : Db) (k : String) (row : CloudRow)
    (hk : k ∈ SYNCABLE_KEYS)
    (hrow : cloudGet cloud k = some row)
    (hl : ∀ L, getTimestamp db k = some L → L < row.updated_at) :
    alGet (syncAll now false cloud db).2.2.1 k = some (.str row.encrypted_data)
    ∧ getTimestamp (syncAll now false cloud db).2.2.1 k = some row.updated_at
    ∧ k ∉ (syncAll now2 false (syncAll now false cloud db).2.1
            (syncAll now false cloud db).2.2.1).1.uploaded := by
  have hcs : csnapOf cloud k = some row.updated_at := by
    unfold csnapOf
    rw [hrow]
    rfl
  have hdec : syncDecision (lsnapOf db k) (csnapOf cloud k) = .download := by
    show syncDecision (getTimestamp db k) (csnapOf cloud k) = .download
    rw [hcs]
    cases hls : getTimestamp db k with
    | none => rfl
    | some L =>
      have hlt := hl L hls
      have hnlt : ¬ row.updated_at < L := lt_asymm hlt
      simp [syncDecision, hnlt, hlt]
  have h1 := syncRun_download now cloud db hk hdec hrow
  have h2 : (syncAll now false cloud db).2.2.1 = (syncRun now cloud db).db := rfl
  have h3 : (syncAll now false cloud db).2.1 = (syncRun now cloud db).cloud := rfl
  refine ⟨?_, ?_, ?_⟩
  · rw [h2]; exact h1.1
  · rw [h2]; exact h1.2.1
  · rw [h2, h3]
    have h4 : (syncAll now2 false (syncRun now cloud db).cloud
          (syncRun now cloud db).db).1.uploaded
        = (syncRun now2 (syncRun now cloud db).cloud
            (syncRun now cloud db).db).uploaded := rfl
    rw [h4, syncRun_uploaded]
    intro hmem
    have hd := (List.mem_filter.mp hmem).2
    have hdec2 : syncDecision (lsnapOf (syncRun now cloud db).db k)
        (csnapOf (syncRun now cloud db).cloud k) = .skip := by
      show syncDecision (getTimestamp (syncRun now cloud db).db k) _ = _
      rw [h1.2.1]
      have hcs2 : csnapOf (syncRun now cloud db).cloud k
          = some row.updated_at := by
        unfold csnapOf
        rw [h1.2.2]
        rfl
      rw [hcs2]
      simp [syncDecision]
    rw [hdec2] at hd
    exact absurd (of_decide_eq_true hd) (by intro hcon; cases hcon)

/-- Witness for C4: a remote `exams` row with timestamp 2000 and no local
ledger entry is downloaded with ledger entry 2000 (not the clock reading
999), and a second sync at time 3000 does not re-upload `exams`. -/
theorem syncAll_download_remote_timestamp_witness :
    alGet (syncAll 999 false [⟨"exams", "cloud-blob", 2000⟩] []).2.2.1 "exams"
      = some (.str "cloud-blob")
    ∧ getTimestamp (syncAll 999 false [⟨"exams", "cloud-blob", 2000⟩] []).2.2.1
        "exams" = some 2000
    ∧ "exams" ∉ (syncAll 3000 false
        (syncAll 999 false [⟨"exams", "cloud-blob", 2000⟩] []).2.1
        (syncAll 999 false [⟨"exams", "cloud-blob", 2000⟩] []).2.2.1).1.uploaded :=
  syncAll_download_remote_timestamp 999 3000 [⟨"exams", "cloud-blob", 2000⟩] []
    "exams" ⟨"exams", "cloud-blob", 2000⟩ (by decide) (by rfl)
    (fun L h => nomatch h)

/-! ### C6 — backup rotation -/

/-- The last `n` elements of a list. -/
def takeLast {α : Type} (n : Nat) (l : List α) : List α :=
  (l.reverse.take n).reverse

theorem takeLast_of_length_le {α : Type} {n : Nat} {l : List α}
    (h : l.length ≤ n) : takeLast n l = l := by
  unfold takeLast
  rw [List.take_of_length_le (by simpa using h), List.reverse_reverse]

theorem takeLast_append_takeLast {α : Type} (n : Nat) (x y : List α) :
    takeLast n (takeLast n x ++ y) = takeLast n (x ++ y) := by
  unfold takeLast
  rw [List.reverse_append, List.reverse_reverse, List.reverse_append]
  congr 1
  simp only [List.take_append_eq_append_take]
  congr 1
  rw [List.take_take, Nat.min_eq_left (Nat.sub_le n _)]

theorem takeLast_eq_drop {α : Type} (n : Nat) (l : List α) :
    takeLast n l = l.drop (l.length - n) := by
  induction l with
  | nil => simp [takeLast]
  | cons x xs ih =>
    by_cases h : (x :: xs).length ≤ n
    · rw [takeLast_of_length_le h, Nat.sub_eq_zero_of_le h, List.drop_zero]
    · push_neg at h
      have hx : n ≤ xs.length := by
        simp only [List.length_cons] at h
        omega
      have h1 : takeLast n (x :: xs) = takeLast n xs := by
        unfold takeLast
        rw [List.reverse_cons, List.take_append_of_le_length (by simpa using hx)]
      have h2 : (x :: xs).length - n = (xs.length - n) + 1 := by
        simp only [List.length_cons]
        omega
      rw [h1, ih, h2, List.drop_succ_cons]

theorem length_takeLast {α : Type} (n : Nat) (l : List α) :
    (takeLast n l).length = min n l.length := by
  unfold takeLast
  simp [List.length_take]

theorem length_insertDesc (r : BackupRow) (l : List BackupRow) :
    (insertDesc r l).length = l.length + 1 := by
  induction l with
  | nil => rfl
  | cons x xs ih =>
    unfold insertDesc
    by_cases h : x.created_at ≤ r.created_at <;> simp [h, ih]

theorem length_sortByCreatedDesc (l : List BackupRow) :
    (sortByCreatedDesc l).length = l.length := by
  induction l with
  | nil => rfl
  | cons x xs ih =>
    show (insertDesc x (sortByCreatedDesc xs)).length = _
    rw [length_insertDesc, ih]
    rfl

/-- With at most 3 backups present, the pruning query deletes nothing. -/
theorem deleteOldBackups_of_le (l : List BackupRow) (h : l.length ≤ 3) :
    deleteOldBackups l = l := by
  unfold deleteOldBackups
  rw [if_neg]
  rw [length_sortByCreatedDesc]
  omega

/-- `createBackup` with at most 2 existing backups only appends the new
snapshot. -/
theorem createBackup_of_le (cloud : CloudState) (newId : Nat) (now : Timestamp)
    (s : List BackupRow) (hcloud : cloud.isEmpty = false) (h : s.length ≤ 2) :
    createBackup cloud newId now s = s ++ [⟨newId, now, snapshotCloud cloud⟩] := by
  unfold createBackup
  rw [hcloud]
  simp only [Bool.false_eq_true, if_false]
  refine deleteOldBackups_of_le _ ?_
  rw [List.length_append]
  simp only [List.length_singleton]
  omega

/-- `createBackup` on a full window of 3 backups in ascending creation
order prunes the oldest and keeps the 3 most recent. -/
theorem createBackup_full (cloud : CloudState) (newId : Nat) (now : Timestamp)
    (a b c : BackupRow)
    (hcloud : cloud.isEmpty = false)
    (hab : a.created_at < b.created_at) (hbc : b.created_at < c.created_at)
    (hcn : c.created_at < now)
    (hba : b.id ≠ a.id) (hca : c.id ≠ a.id) (hna : newId ≠ a.id) :
    createBackup cloud newId now [a, b, c]
      = [b, c, ⟨newId, now, snapshotCloud cloud⟩] := by
  have hac : a.created_at < c.created_at := hab.trans hbc
  have han : a.created_at < now := hac.trans hcn
  have hbn : b.created_at < now := hbc.trans hcn
  unfold createBackup
  rw [hcloud]
  simp only [Bool.false_eq_true, if_false]
  have hsort : sortByCreatedDesc ([a, b, c] ++ [⟨newId, now, snapshotCloud cloud⟩])
      = [⟨newId, now, snapshotCloud cloud⟩, c, b, a] := by
    show insertDesc a (insertDesc b (insertDesc c
        (insertDesc ⟨newId, now, snapshotCloud cloud⟩ []))) = _
    simp [insertDesc, not_le.mpr hcn, not_le.mpr hbn, not_le.mpr han,
      not_le.mpr hbc, not_le.mpr hac, not_le.mpr hab]
  unfold deleteOldBackups
  rw [hsort]
  simp only [List.length_cons, List.length_nil]
  rw [if_pos (by omega)]
  simp only [List.drop_succ_cons, List.drop_zero, List.map_cons, List.map_nil]
  show List.filter _ [a, b, c, _] = _
  simp [List.filter_cons, hba, hca, hna]

/-- A BackupCall's inserted row. -/
def backupRowOf (c : BackupCall) : BackupRow :=
  ⟨c.newId, c.now, snapshotCloud c.cloud⟩

/-- The rotation invariant: starting from at most 3 backups older than
every pending call, with strictly increasing creation times, globally
distinct row ids and non-empty cloud data on every call, a sequence of
`createBackup` calls leaves exactly the 3 most recent snapshots. -/
theorem runBackups_takeLast (calls : List BackupCall) (s : List BackupRow)
    (hlen : s.length ≤ 3)
    (hasc : (s.map BackupRow.created_at ++ calls.map BackupCall.now).Chain' (· < ·))
    (hids : (s.map BackupRow.id ++ calls.map BackupCall.newId).Nodup)
    (hne : ∀ c ∈ calls, c.cloud.isEmpty = false) :
    runBackups calls s = takeLast 3 (s ++ calls.map backupRowOf) := by
  induction calls generalizing s with
  | nil =>
    simp only [runBackups, List.foldl_nil, List.map_nil, List.append_nil]
    exact (takeLast_of_length_le hlen).symm
  | cons c rest ih =>
    have hcne := hne c (List.mem_cons_self c rest)
    have hrestne : ∀ c2 ∈ rest, c2.cloud.isEmpty = false :=
      fun c2 hm => hne c2 (List.mem_cons_of_mem c hm)
    have hrow : (⟨c.newId, c.now, snapshotCloud c.cloud⟩ : BackupRow)
        = backupRowOf c := rfl
    show runBackups rest (createBackup c.cloud c.newId c.now s) = _
    match s, hlen, hasc, hids with
    | a :: b :: c3 :: d :: s', hlen, _, _ =>
      exact absurd hlen (by simp only [List.length_cons]; omega)
    | [], _, hasc, hids =>
      rw [createBackup_of_le c.cloud c.newId c.now [] hcne (by simp), hrow]
      have := ih ([] ++ [backupRowOf c]) (by simp)
        (by simpa using hasc) (by simpa using hids) hrestne
      rw [this]
      simp
    | [a], _, hasc, hids =>
      rw [createBackup_of_le c.cloud c.newId c.now [a] hcne (by simp), hrow]
      have := ih ([a] ++ [backupRowOf c]) (by simp)
        (by simpa using hasc) (by simpa using hids) hrestne
      rw [this]
      simp
    | [a, b], _, hasc, hids =>
      rw [createBackup_of_le c.cloud c.newId c.now [a, b] hcne (by simp), hrow]
      have := ih ([a, b] ++ [backupRowOf c]) (by simp)
        (by simpa using hasc) (by simpa using hids) hrestne
      rw [this]
      simp
    | [a, b, c3], _, hasc, hids =>
      simp only [List.map_cons, List.map_nil, List.cons_append, List.nil_append,
        List.chain'_cons] at hasc
      have hab := hasc.1
      have hbc := hasc.2.1
      have hcn := hasc.2.2.1
      have hasc' := hasc.2.2.2
      simp only [List.map_cons, List.map_nil, List.cons_append, List.nil_append,
        List.nodup_cons] at hids
      have hba : b.id ≠ a.id := fun hh =>
        hids.1 (by rw [← hh]; exact List.mem_cons_self b.id _)
      have hca : c3.id ≠ a.id := fun hh =>
        hids.1 (by rw [← hh]; exact List.mem_cons_of_mem _ (List.mem_cons_self c3.id _))
      have hna : c.newId ≠ a.id := fun hh =>
        hids.1 (by rw [← hh]
                   exact List.mem_cons_of_mem _ (List.mem_cons_of_mem _
                     (List.mem_cons_self c.newId _)))
      rw [createBackup_full c.cloud c.newId c.now a b c3 hcne hab hbc hcn
        hba hca hna, hrow]
      have hih := ih [b, c3, backupRowOf c] (by simp)
        (by simp only [List.map_cons, List.map_nil, List.cons_append,
              List.nil_append, List.chain'_cons]
            exact ⟨hbc, hcn, hasc'⟩)
        (by simp only [List.map_cons, List.map_nil, List.cons_append,
              List.nil_append, List.nodup_cons]
            exact ⟨hids.2.1, hids.2.2.1, hids.2.2.2⟩)
        hrestne
      rw [hih]
      have hs' : ([b, c3, backupRowOf c] : List BackupRow)
          = takeLast 3 ([a, b, c3] ++ [backupRowOf c]) := by rfl
      rw [hs', takeLast_append_takeLast]
      simp

/-- C6: after any sequence of more than 3 successful `createBackup` calls
with non-empty remote data (with strictly increasing creation instants
and fresh row ids), exactly 3 backup rows remain for the user, and they
are the rows of the 3 most recent calls. -/
theorem createBackup_rotation (calls : List BackupCall)
    (hn : 3 < calls.length)
    (hasc : (calls.map BackupCall.now).Chain' (· < ·))
    (hids : (calls.map BackupCall.newId).Nodup)
    (hne : ∀ c ∈ calls, c.cloud.isEmpty = false) :
    (runBackups calls []).length = 3
    ∧ runBackups calls [] = (calls.map backupRowOf).drop (calls.length - 3) := by
  have h := runBackups_takeLast calls [] (by simp)
    (by simpa using hasc) (by simpa using hids) hne
  simp only [List.nil_append] at h
  constructor
  · rw [h, length_takeLast, List.length_map]
    omega
  · rw [h, takeLast_eq_drop, List.length_map]

/-- Five concrete backup calls for the rotation witness. -/
def backupCallsW : List BackupCall :=
  [⟨[⟨"classes", "x1", 0⟩], 1, 10⟩, ⟨[⟨"classes", "x2", 0⟩], 2, 20⟩,
   ⟨[⟨"classes", "x3", 0⟩], 3, 30⟩, ⟨[⟨"classes", "x4", 0⟩], 4, 40⟩,
   ⟨[⟨"classes", "x5", 0⟩], 5, 50⟩]

/-- Witness for C6: five backup calls leave exactly the three most recent
snapshots. -/
theorem createBackup_rotation_witness :
    3 < backupCallsW.length
    ∧ ((runBackups backupCallsW []).length = 3
        ∧ runBackups backupCallsW []
            = (backupCallsW.map backupRowOf).drop (backupCallsW.length - 3)) :=
  ⟨by decide,
    createBackup_rotation backupCallsW (by decide)
      (by simp [backupCallsW, List.chain'_cons]) (by decide) (by decide)⟩

end Planungstool
